import Mathlib

/-!
Shallow embedding of the pipeline execution engine of a small interactive
shell (Rust sources: `src/pipeline.rs`, `src/io.rs`, `src/builtins.rs`).

Byte strings are modelled as `List Char`.  The OS-level effects that the
engine performs (spawning children, spawning copier threads, waiting on
children, exiting the process) are recorded as an ordered list of events
`PEv`; writes to the inherited standard streams, to redirection files and
to in-memory buffers are modelled directly on the state.  External
collaborators (the PATH resolver, external executables, the OS answers to
`spawn`, `open`, `set_current_dir` and stream writes) are abstracted into
an environment `Env` of response functions.  A Rust `unwrap()`/panic is
modelled by the `panicked` flag of the state: once set, every later
effect of the interpreter is suppressed (the process has aborted).
-/

abbrev Str := List Char

/-- File system model: association list from path to file contents. -/
abbrev FS := List (Str × Str)

def fsGet : FS → Str → Option Str
  | [], _ => none
  | (q, v) :: r, p => if q = p then some v else fsGet r p

def fsSet : FS → Str → Str → FS
  | [], p, v => [(p, v)]
  | (q, w) :: r, p, v => if q = p then (p, v) :: r else (q, w) :: fsSet r p v

/-- Append bytes to a file (creating it when absent). -/
def fsApp (fs : FS) (p : Str) (s : Str) : FS :=
  fsSet fs p ((fsGet fs p).getD [] ++ s)

/-- `OpenOptions::new().append(true).create(true)`: keep existing contents,
create an empty file when absent. -/
def fsTouch (fs : FS) (p : Str) : FS :=
  if (fsGet fs p).isSome then fs else fsSet fs p []

/-- Configuration of one standard stream of a spawned child
(`Stdio::inherit()` or `Stdio::piped()`). -/
inductive StdioCfg
  | inherit
  | piped
deriving DecidableEq, Repr

/-- Process-level events performed by the engine, in program order. -/
inductive PEv
  /-- `Command::new(name).args(args).stdin(i).stdout(o).stderr(e).spawn()`
  succeeded. -/
  | spawn (name : Str) (args : List Str) (sin sout serr : StdioCfg)
  /-- `std::thread::spawn(move || child_stdin.write_all(&data))`: a dedicated
  thread delivers an in-memory byte buffer into the child's standard input;
  the moved handle is dropped — hence closed — when the thread finishes
  (`run_pipeline_with_input`). -/
  | copyTask (bytes : Str)
  /-- `std::thread::spawn(move || io::copy(&mut prev_out, &mut child_stdin))`:
  a dedicated thread drains the previous child's live stdout pipe into this
  child's standard input (`run_piped_commands`). -/
  | pipeCopy (bytes : Str)
  /-- Inline (same-thread) write of buffered bytes into a child's standard
  input, between spawn and wait (`run_external`). -/
  | inlineFeed (bytes : Str)
  /-- `child.wait()` / `child.wait_with_output()` returned. -/
  | waitChild (name : Str)
  /-- A builtin handler was dispatched in-process for this command name. -/
  | runBuiltin (name : Str)
  /-- `std::process::exit(code)`. -/
  | exitProcess (code : Nat)
deriving DecidableEq, Repr

/-- Responses of the external collaborators (OS, PATH, executables). -/
structure Env where
  /-- Whether `Command::spawn` succeeds for this command name. -/
  spawnOk : Str → Bool
  /-- Bytes an external command writes to its stdout, given its name,
  arguments and the bytes available on its stdin. -/
  extOut : Str → List Str → Str → Str
  /-- Bytes an external command writes to its stderr. -/
  extErr : Str → List Str → Str → Str
  /-- Whether opening this path for writing succeeds. -/
  openOk : Str → Bool
  /-- Whether `set_current_dir` succeeds for this path. -/
  dirOk : Str → Bool
  /-- `env::home_dir()`. -/
  home : Option Str
  /-- PATH resolution used by the `type` builtin. -/
  pathLookup : Str → Option Str
  /-- Whether writes to the inherited stdout succeed. -/
  stdoutOk : Bool
  /-- Whether writes to the inherited stderr succeed. -/
  stderrOk : Bool
  /-- Whether writes to redirection files succeed. -/
  fileOk : Bool

/-- Interpreter-visible state: the file system, the current directory
(`none` when unobtainable), the bytes the interpreter wrote to its
inherited stdout and stderr, the ordered process events, and whether the
process has panicked (a failed `unwrap`/`expect` aborts the process; all
later effects are suppressed). -/
structure St where
  fs : FS
  cwd : Option Str
  out : Str
  err : Str
  procs : List PEv
  panicked : Bool
deriving DecidableEq, Repr

/-- Where a `ShellIO` stream points: the inherited terminal stream, an
opened redirection file, or an in-memory `Vec<u8>` buffer. -/
inductive WSink
  | term
  | file (p : Str)
  | buf
deriving DecidableEq, Repr

/-- Model of `ShellIO` (io.rs): resolved streams of one stage. -/
structure ShellIo where
  stdin : Option Str
  outS : WSink
  errS : WSink
  capture_stdout : Bool
  capture_stderr : Bool
deriving DecidableEq, Repr

/-- `ShellIO::new()`: everything inherited. -/
def ShellIo.new : ShellIo :=
  ⟨none, .term, .term, false, false⟩

/-- One `write!`/`writeln!` followed by `.unwrap()` (or `print!`/`eprintln!`,
which also abort on a failed write).  Writing an empty byte string performs
no OS write and cannot fail.  `isErr` selects the inherited stderr over the
inherited stdout for `.term` sinks.  Returns the state and the in-memory
buffer (only `.buf` sinks touch the buffer). -/
def stWrite (env : Env) (isErr : Bool) (s : WSink) (bytes : Str) (st : St) (buf : Str) :
    St × Str :=
  if st.panicked ∨ bytes = [] then (st, buf) else
  match s with
  | .term =>
      if isErr then
        if env.stderrOk then ({ st with err := st.err ++ bytes }, buf)
        else ({ st with panicked := true }, buf)
      else
        if env.stdoutOk then ({ st with out := st.out ++ bytes }, buf)
        else ({ st with panicked := true }, buf)
  | .file p =>
      if env.fileOk then ({ st with fs := fsApp st.fs p bytes }, buf)
      else ({ st with panicked := true }, buf)
  | .buf => (st, buf ++ bytes)

/-- `eprintln!` in the orchestrator: write to the inherited stderr. -/
def eput (env : Env) (bytes : Str) (st : St) : St :=
  (stWrite env true .term bytes st []).1

/-- `print!` / `stdout().write_all` in the orchestrator: write to the
inherited stdout. -/
def oput (env : Env) (bytes : Str) (st : St) : St :=
  (stWrite env false .term bytes st []).1

/-- Record a process event; suppressed after a panic. -/
def addEv (st : St) (e : PEv) : St :=
  if st.panicked then st else { st with procs := st.procs ++ [e] }

/-! ## Tokenizer (external collaborator)

Modelled from the spec: the per-stage tokenizer is the word-splitting
collaborator (`shell_words::split`, not part of this repository): it
splits a stage string into argument tokens honoring single quotes, double
quotes and backslash escapes, and fails when quoting is unterminated at
the end of the stage text. -/

inductive SwState
  | delim
  | bslash
  | unq
  | unqBslash
  | squote
  | dquote
  | dqBslash
deriving DecidableEq, Repr

def swWorker : Str → SwState → Str → List Str → Except Unit (List Str)
  | [], stt, cur, words =>
    match stt with
    | .delim => .ok words
    | .unq => .ok (words ++ [cur])
    | _ => .error ()
  | c :: rest, stt, cur, words =>
    match stt with
    | .delim =>
        if c = '\'' then swWorker rest .squote cur words
        else if c = '"' then swWorker rest .dquote cur words
        else if c = '\\' then swWorker rest .bslash cur words
        else if c.isWhitespace then swWorker rest .delim cur words
        else swWorker rest .unq (cur ++ [c]) words
    | .bslash =>
        if c = '\n' then swWorker rest .delim cur words
        else swWorker rest .unq (cur ++ [c]) words
    | .unq =>
        if c = '\'' then swWorker rest .squote cur words
        else if c = '"' then swWorker rest .dquote cur words
        else if c = '\\' then swWorker rest .unqBslash cur words
        else if c.isWhitespace then swWorker rest .delim [] (words ++ [cur])
        else swWorker rest .unq (cur ++ [c]) words
    | .unqBslash =>
        if c = '\n' then swWorker rest .unq cur words
        else swWorker rest .unq (cur ++ [c]) words
    | .squote =>
        if c = '\'' then swWorker rest .unq cur words
        else swWorker rest .squote (cur ++ [c]) words
    | .dquote =>
        if c = '"' then swWorker rest .unq cur words
        else if c = '\\' then swWorker rest .dqBslash cur words
        else swWorker rest .dquote (cur ++ [c]) words
    | .dqBslash =>
        if c = '\n' then swWorker rest .dquote cur words
        else if c = '$' ∨ c = Char.ofNat 96 ∨ c = '"' ∨ c = '\\' then
          swWorker rest .dquote (cur ++ [c]) words
        else swWorker rest .dquote (cur ++ ['\\', c]) words

/-- `shell_words::split`: `.error` models an unterminated-quoting
`ParseError`. -/
def splitWords (s : Str) : Except Unit (List Str) :=
  swWorker s .delim [] []

/-! ## Line segmenter (`parse_pipeline`, io.rs) -/

def trimChars (cs : Str) : Str :=
  ((cs.dropWhile Char.isWhitespace).reverse.dropWhile Char.isWhitespace).reverse

/-- Push a finished segment: trim it and drop it if empty. -/
def trimFilter (cs : Str) : List Str :=
  if trimChars cs = [] then [] else [trimChars cs]

/-- Character scan of `parse_pipeline`: two quote flags, `|` splits only
when neither is set. -/
def segWorker : Str → Str → Bool → Bool → List Str → List Str
  | [], cur, _, _, segs => segs ++ trimFilter cur
  | c :: rest, cur, sq, dq, segs =>
    if c = '\'' ∧ ¬dq then segWorker rest (cur ++ ['\'']) (!sq) dq segs
    else if c = '"' ∧ ¬sq then segWorker rest (cur ++ ['"']) sq (!dq) segs
    else if c = '|' ∧ ¬sq ∧ ¬dq then segWorker rest [] sq dq (segs ++ trimFilter cur)
    else segWorker rest (cur ++ [c]) sq dq segs

/-- `parse_pipeline` (io.rs): split one input line into pipeline-stage
strings. -/
def parse_pipeline (input : Str) : List Str :=
  segWorker input [] false false []

/-! ## Redirection resolver (`setup_redirections`, io.rs) -/

/-- `OpenOptions::new().write(true).create(true).truncate(!append).append(append).open(path)`. -/
def openFile (env : Env) (p : Str) (append : Bool) (fs : FS) : Except Str FS :=
  if env.openOk p then
    .ok (if append then fsTouch fs p else fsSet fs p [])
  else
    .error ("Failed to open ".data ++ p ++ ": os error".data)

/-- Left-to-right scan of the token list: `clean` accumulates non-operator
tokens, `so`/`se` are the current stdout/stderr redirection files.  On an
error (missing filename, failed open) the files already opened keep their
side effects on the file system. -/
def redirScan (env : Env) :
    List Str → List Str → Option Str → Option Str → FS →
    Except Str (List Str × Option Str × Option Str) × FS
  | [], clean, so, se, fs => (.ok (clean, so, se), fs)
  | t :: rest, clean, so, se, fs =>
    if t = ">".data ∨ t = "1>".data then
      match rest with
      | [] => (.error "Missing filename for stdout".data, fs)
      | f :: rest' =>
        match openFile env f false fs with
        | .ok fs' => redirScan env rest' clean (some f) se fs'
        | .error e => (.error e, fs)
    else if t = ">>".data ∨ t = "1>>".data then
      match rest with
      | [] => (.error "Missing filename for stdout append".data, fs)
      | f :: rest' =>
        match openFile env f true fs with
        | .ok fs' => redirScan env rest' clean (some f) se fs'
        | .error e => (.error e, fs)
    else if t = "2>".data then
      match rest with
      | [] => (.error "Missing filename for stderr".data, fs)
      | f :: rest' =>
        match openFile env f false fs with
        | .ok fs' => redirScan env rest' clean so (some f) fs'
        | .error e => (.error e, fs)
    else if t = "2>>".data then
      match rest with
      | [] => (.error "Missing filename for stderr append".data, fs)
      | f :: rest' =>
        match openFile env f true fs with
        | .ok fs' => redirScan env rest' clean so (some f) fs'
        | .error e => (.error e, fs)
    else if t = "&>".data then
      match rest with
      | [] => (.error "Missing filename for &>".data, fs)
      | f :: rest' =>
        match openFile env f false fs with
        | .ok fs' => redirScan env rest' clean (some f) (some f) fs'
        | .error e => (.error e, fs)
    else if t = "2>&1".data then
      -- stderr duplicates whatever stdout currently resolves to
      -- (a clone of the same file, or back to inherited when none).
      redirScan env rest clean so so fs
    else
      redirScan env rest (clean ++ [t]) so se fs

/-- `setup_redirections` (io.rs): returns the cleaned tokens plus the
resolved stdout/stderr files, threading the file system. -/
def setup_redirections (env : Env) (tokens : List Str) (fs : FS) :
    Except Str (List Str × Option Str × Option Str) × FS :=
  redirScan env tokens [] none none fs

/-- Build the `ShellIO` from the final pair of file handles
(`new_capture_both` / `new_capture_stdout` / `new_capture_stderr` / `new`). -/
def mkIo : Option Str → Option Str → ShellIo
  | some o, some e => ⟨none, .file o, .file e, true, true⟩
  | some o, none => ⟨none, .file o, .term, true, false⟩
  | none, some e => ⟨none, .term, .file e, false, true⟩
  | none, none => ⟨none, .term, .term, false, false⟩

/-! ## Builtin handlers (builtins.rs) -/

def BUILTINS : List Str :=
  ["cd".data, "echo".data, "exit".data, "history".data, "pwd".data, "type".data]

def handle_cd (env : Env) (tokens : List Str) (io : ShellIo) (st : St) (buf : Str) :
    St × Str :=
  if st.panicked then (st, buf) else
  if tokens.length > 1 then
    let arg := tokens.getD 1 []
    let dir : Str :=
      if arg = "~".data then
        match env.home with
        | some h => h
        | none => arg
      else arg
    if env.dirOk dir then ({ st with cwd := some dir }, buf)
    else stWrite env true io.errS
      ("cd: ".data ++ dir ++ ": No such file or directory\n".data) st buf
  else (st, buf)

def joinSp : List Str → Str
  | [] => []
  | [x] => x
  | x :: xs => x ++ ' ' :: joinSp xs

def handle_echo (env : Env) (tokens : List Str) (io : ShellIo) (st : St) (buf : Str) :
    St × Str :=
  stWrite env false io.outS (joinSp tokens.tail ++ "\n".data) st buf

/-- One history line: `"    {i+1}  {entry}\n"`. -/
def histLine (ie : Nat × Str) : Str :=
  "    ".data ++ (toString (ie.1 + 1)).data ++ "  ".data ++ ie.2 ++ "\n".data

def handle_history (env : Env) (hist : List Str) (io : ShellIo) (st : St) (buf : Str) :
    St × Str :=
  hist.enum.foldl (fun p ie => stWrite env false io.outS (histLine ie) p.1 p.2) (st, buf)

def handle_pwd (env : Env) (io : ShellIo) (st : St) (buf : Str) : St × Str :=
  match st.cwd with
  | some p => stWrite env false io.outS (p ++ "\n".data) st buf
  | none => stWrite env true io.errS "pwd: can't obtain working directory\n".data st buf

def handle_type (env : Env) (tokens : List Str) (io : ShellIo) (st : St) (buf : Str) :
    St × Str :=
  if tokens.length > 1 then
    let t := tokens.getD 1 []
    if t ∈ BUILTINS then
      stWrite env false io.outS (t ++ " is a shell builtin\n".data) st buf
    else
      match env.pathLookup t with
      | some p => stWrite env false io.outS (t ++ " is ".data ++ p ++ "\n".data) st buf
      | none => stWrite env true io.errS (t ++ ": not found\n".data) st buf
  else (st, buf)

/-- Shared dispatch over the five handler-backed builtins (the match arms of
`run_builtin_for_pipe` / `run_builtin_with_bytes`; `exit` and unknown names
fall through to the do-nothing arm). -/
def dispatchBuiltin (env : Env) (hist : List Str) (name : Str) (tokens : List Str)
    (io : ShellIo) (st : St) (buf : Str) : St × Str :=
  if name = "cd".data then handle_cd env tokens io st buf
  else if name = "echo".data then handle_echo env tokens io st buf
  else if name = "history".data then handle_history env hist io st buf
  else if name = "pwd".data then handle_pwd env io st buf
  else if name = "type".data then handle_type env tokens io st buf
  else (st, buf)

/-! ## Pipeline orchestration (pipeline.rs) -/

/-- `run_external` (pipeline.rs): spawn with streams configured from the
`ShellIO`; when the context holds buffered stdin bytes they are written to
the child's stdin inline, between spawn and wait; `wait_with_output`, then
captured output/stderr is copied to the context's sinks. -/
def run_external (env : Env) (tokens : List Str) (io : ShellIo) (st : St) : St :=
  if st.panicked then st else
  let target := tokens.headD []
  let args := tokens.tail
  let sin : StdioCfg := if io.stdin.isSome then .piped else .inherit
  let sout : StdioCfg := if io.capture_stdout then .piped else .inherit
  let serr : StdioCfg := if io.capture_stderr then .piped else .inherit
  if env.spawnOk target then
    let st := addEv st (.spawn target args sin sout serr)
    let st :=
      match io.stdin with
      | some b => if sin = .piped then addEv st (.inlineFeed b) else st
      | none => st
    let st := addEv st (.waitChild target)
    let childIn := io.stdin.getD []
    let st :=
      if io.capture_stdout then
        (stWrite env false io.outS (env.extOut target args childIn) st []).1
      else st
    if io.capture_stderr then
      (stWrite env true io.errS (env.extErr target args childIn) st []).1
    else st
  else
    (stWrite env true io.errS (target ++ ": command not found\n".data) st []).1

/-- `run_single_command` (pipeline.rs). -/
def run_single_command (env : Env) (hist : List Str) (command : Str) (st : St) : St :=
  if st.panicked then st else
  match splitWords command with
  | .error _ => eput env "failed to parse command input\n".data st
  | .ok args =>
    if args = [] then st else
    match setup_redirections env args st.fs with
    | (.error e, fs') => eput env (e ++ "\n".data) { st with fs := fs' }
    | (.ok (tokens, so, se), fs') =>
      let st := { st with fs := fs' }
      let io := mkIo so se
      if tokens = [] then st else
      let name := tokens.headD []
      if name = "exit".data then addEv st (.exitProcess 0)
      else if name ∈ BUILTINS then
        (dispatchBuiltin env hist name tokens io (addEv st (.runBuiltin name)) []).1
      else run_external env tokens io st

/-- `run_builtin_for_pipe` (pipeline.rs): run a builtin with its stdout
captured into a fresh buffer; stdin is the live pipe of the previous
external stage when there is one (no handler reads it). -/
def run_builtin_for_pipe (env : Env) (hist : List Str) (tokens : List Str)
    (stdin : Option Str) (st : St) : St × Str :=
  let io : ShellIo := ⟨stdin, .buf, .term, true, false⟩
  let name := tokens.headD []
  dispatchBuiltin env hist name tokens io (addEv st (.runBuiltin name)) []

/-- `run_builtin_with_bytes` (pipeline.rs): like `run_builtin_for_pipe`, but
stdin is an in-memory cursor over the given bytes. -/
def run_builtin_with_bytes (env : Env) (hist : List Str) (tokens : List Str)
    (input : Str) (st : St) : St × Str :=
  let io : ShellIo := ⟨some input, .buf, .term, true, false⟩
  let name := tokens.headD []
  dispatchBuiltin env hist name tokens io (addEv st (.runBuiltin name)) []

/-- Loop body of `run_pipeline_with_input` (pipeline.rs): the remaining
segments are executed with `input` as the bytes feeding the next stage's
standard input.  Every external stage gets `Stdio::piped()` stdin and a
dedicated thread (`copyTask`) delivering the buffered bytes. -/
def withInputLoop (env : Env) (hist : List Str) (segs : List Str) (input : Str)
    (st : St) : St :=
  match segs with
  | [] => st
  | seg :: rest =>
    if st.panicked then st else
    let is_last := rest = []
    match splitWords seg with
    | .error _ => eput env "failed to parse command input\n".data st
    | .ok args =>
      if args = [] then withInputLoop env hist rest input st else
      match (if is_last then setup_redirections env args st.fs
             else (.ok (args, none, none), st.fs)) with
      | (.error e, fs') => eput env (e ++ "\n".data) { st with fs := fs' }
      | (.ok (tokens, so, se), fs') =>
        let st := { st with fs := fs' }
        let io := mkIo so se
        if tokens = [] then withInputLoop env hist rest input st else
        let name := tokens.headD []
        if name ∈ BUILTINS then
          let r := run_builtin_with_bytes env hist tokens input st
          if is_last then oput env r.2 r.1
          else withInputLoop env hist rest r.2 r.1
        else
          let sout : StdioCfg :=
            if is_last then (if io.capture_stdout then .piped else .inherit) else .piped
          let serr : StdioCfg := if io.capture_stderr then .piped else .inherit
          if env.spawnOk name then
            let st := addEv st (.spawn name tokens.tail .piped sout serr)
            let st := addEv st (.copyTask input)
            let st := addEv st (.waitChild name)
            let captured := if sout = StdioCfg.piped then env.extOut name tokens.tail input else []
            if is_last then
              if io.capture_stdout then st
              -- captured output is discarded (the source comment claiming the
              -- file was already written is wrong; nothing reaches the file)
              else oput env captured st
            else withInputLoop env hist rest captured st
          else eput env (name ++ ": command not found\n".data) st

/-- `run_pipeline_with_input` (pipeline.rs): with no segments the input is
printed to the inherited stdout, otherwise the loop runs. -/
def run_pipeline_with_input (env : Env) (hist : List Str) (segs : List Str)
    (input : Str) (st : St) : St :=
  if segs = [] then oput env input st else withInputLoop env hist segs input st

/-- Loop of `run_piped_commands` (pipeline.rs): `children` are the names of
already-spawned children, `prev` the byte stream of the previous external
stage's live stdout pipe.  When the loop finishes normally, every child is
waited on; every `return` before that drops the children unawaited. -/
def pipedLoop (env : Env) (hist : List Str) (segs : List Str) (children : List Str)
    (prev : Option Str) (st : St) : St :=
  match segs with
  | [] => children.foldl (fun s n => addEv s (.waitChild n)) st
  | seg :: rest =>
    if st.panicked then st else
    let is_last := rest = []
    match splitWords seg with
    | .error _ => eput env "failed to parse command input\n".data st
    | .ok args =>
      if args = [] then pipedLoop env hist rest children prev st else
      match (if is_last then setup_redirections env args st.fs
             else (.ok (args, none, none), st.fs)) with
      | (.error e, fs') => eput env (e ++ "\n".data) { st with fs := fs' }
      | (.ok (tokens, so, se), fs') =>
        let st := { st with fs := fs' }
        let io := mkIo so se
        if tokens = [] then pipedLoop env hist rest children prev st else
        let name := tokens.headD []
        if name ∈ BUILTINS then
          let r := run_builtin_for_pipe env hist tokens prev st
          if is_last then
            (children.foldl (fun s n => addEv s (.waitChild n)) (oput env r.2 r.1))
          else
            run_pipeline_with_input env hist rest r.2 r.1
        else
          let sin : StdioCfg := if prev.isSome then .piped else .inherit
          let sout : StdioCfg :=
            if is_last then (if io.capture_stdout then .piped else .inherit) else .piped
          let serr : StdioCfg := if io.capture_stderr then .piped else .inherit
          if env.spawnOk name then
            let st := addEv st (.spawn name tokens.tail sin sout serr)
            let st :=
              match prev with
              | some b => if sin = .piped then addEv st (.pipeCopy b) else st
              | none => st
            let newPrev : Option Str :=
              if is_last then none
              else some (env.extOut name tokens.tail (prev.getD []))
            pipedLoop env hist rest (children ++ [name]) newPrev st
          else eput env (name ++ ": command not found\n".data) st

/-- `run_piped_commands` (pipeline.rs). -/
def run_piped_commands (env : Env) (hist : List Str) (segs : List Str) (st : St) : St :=
  pipedLoop env hist segs [] none st

/-- `run_pipeline` (pipeline.rs): segment the line; one segment goes through
`run_single_command`, several through `run_piped_commands`. -/
def run_pipeline (env : Env) (hist : List Str) (input : Str) (st : St) : St :=
  if st.panicked then st else
  let segments := parse_pipeline input
  if segments = [] then st
  else if segments.length = 1 then run_single_command env hist (segments.headD []) st
  else run_piped_commands env hist segments st

/-! ## Concrete environments and states for witnesses and counterexamples -/

/-- A fully cooperative environment: every spawn/open/write succeeds,
external commands are silent. -/
def envAll : Env :=
  { spawnOk := fun _ => true
    extOut := fun _ _ _ => []
    extErr := fun _ _ _ => []
    openOk := fun _ => true
    dirOk := fun _ => true
    home := none
    pathLookup := fun _ => none
    stdoutOk := true
    stderrOk := true
    fileOk := true }

/-- Fresh interpreter state. -/
def st0 : St := ⟨[], some "/".data, [], [], [], false⟩

/-- Environment in which only the command named `a` can be spawned. -/
def envC1 : Env := { envAll with spawnOk := fun n => n == "a".data }

/-- Environment in which writes to the inherited stdout fail. -/
def envC6 : Env := { envAll with stdoutOk := false }

/-- Environment in which only the command named `ls` can be spawned. -/
def envC8 : Env := { envAll with spawnOk := fun n => n == "ls".data }

/-- The redirection operators that consume a following filename token. -/
def fileRedirOps : List Str :=
  [">".data, "1>".data, ">>".data, "1>>".data, "2>".data, "2>>".data, "&>".data]

/-- The missing-filename message produced for each filename-taking operator. -/
def missingMsg (op : Str) : Str :=
  if op = ">".data ∨ op = "1>".data then "Missing filename for stdout".data
  else if op = ">>".data ∨ op = "1>>".data then "Missing filename for stdout append".data
  else if op = "2>".data then "Missing filename for stderr".data
  else if op = "2>>".data then "Missing filename for stderr append".data
  else "Missing filename for &>".data

/-- Delivery discipline on an event chunk: every successful spawn whose
standard input is `Stdio::piped()` is immediately followed by a dedicated
concurrent copy task feeding that input. -/
inductive BufTaskOk : List PEv → Prop
  | nil : BufTaskOk []
  | spawnStep (n : Str) (a : List Str) (o e : StdioCfg) (b : Str) (rest : List PEv) :
      BufTaskOk rest → BufTaskOk (.spawn n a .piped o e :: .copyTask b :: rest)
  | skip (p : PEv) (rest : List PEv) :
      (∀ n a o e, p ≠ .spawn n a .piped o e) → BufTaskOk rest → BufTaskOk (p :: rest)

/-- Concatenate stage texts with a literal `|` between consecutive parts. -/
def interPipe : List Str → Str
  | [] => []
  | [p] => p
  | p :: ps => p ++ '|' :: interPipe ps

/-- A stage text containing no pipe and no quote characters. -/
abbrev plainSeg (p : Str) : Prop := '|' ∉ p ∧ '\'' ∉ p ∧ '"' ∉ p

/-! # Theorems -/

/-- C1, counterexample: in the pipeline `a | b | c` where only `a` can be
spawned, the failure of stage `b` is reported naming `b` and stage `c`
never spawns, but the child already spawned for `a` is dropped without ever
being waited on — refuting the claim that the orchestrator still waits for
every child spawned for earlier stages before returning. -/
theorem C1_counterexample :
    (run_pipeline envC1 [] "a | b | c".data st0).procs
        = [.spawn "a".data [] .inherit .piped .inherit]
      ∧ (run_pipeline envC1 [] "a | b | c".data st0).err = "b: command not found\n".data
      ∧ PEv.waitChild "a".data ∉ (run_pipeline envC1 [] "a | b | c".data st0).procs := by
  decide

/-- C2, counterexample: in `echo hi | 'bad` the second stage has
unterminated quoting, yet the `echo` builtin of the first stage has already
run by the time the `ParseError` is reported — refuting the claim that the
entire pipeline is abandoned before any stage executes. -/
theorem C2_counterexample :
    PEv.runBuiltin "echo".data ∈ (run_pipeline envAll [] "echo hi | 'bad".data st0).procs
      ∧ (run_pipeline envAll [] "echo hi | 'bad".data st0).err
        = "failed to parse command input\n".data := by
  decide

/-- C3, counterexample: on the single-stage line `exit`, the dedicated
single-command path terminates the shell (`exitProcess 0`), while the
general N-stage algorithm run on the same one segment dispatches `exit` as
a do-nothing builtin and does not terminate the shell — the two paths are
observably different, refuting the claim that a single stage is not a
behaviorally distinct special case. -/
theorem C3_counterexample :
    run_single_command envAll [] "exit".data st0 ≠ run_piped_commands envAll [] ["exit".data] st0
      ∧ (run_single_command envAll [] "exit".data st0).procs = [.exitProcess 0]
      ∧ (run_piped_commands envAll [] ["exit".data] st0).procs = [.runBuiltin "exit".data] := by
  decide

/-- C6, counterexample: when a write to the output sink fails, the `echo`
builtin's `writeln!(..).unwrap()` panics and the interpreter process
terminates abnormally — refuting the claim that every builtin handler
returns without aborting the shell process regardless of outcome. -/
theorem C6_counterexample :
    (run_pipeline envC6 [] "echo hi".data st0).panicked = true := by
  decide

/-- C8, counterexample: the line `ls | sort >` ends in a filename-taking
redirection operator with no filename; the ParseError is reported and the
last stage is not executed, but the process for `ls` has already been
spawned — refuting the claim that no process is spawned for that line. -/
theorem C8_counterexample :
    PEv.spawn "ls".data [] .inherit .piped .inherit
        ∈ (run_pipeline envC8 [] "ls | sort >".data st0).procs
      ∧ (run_pipeline envC8 [] "ls | sort >".data st0).err
        = "Missing filename for stdout\n".data := by
  decide

/-- C4: redirection resolution is a single order-sensitive left-to-right
scan.  Each operator assigns (overrides) the file of the stream it targets,
discarding any earlier resolution of that stream; `2>&1` sets the stderr
resolution to whatever the stdout resolution currently is — in particular,
with stdout still unredirected, `cmd 2>&1 > f` leaves stderr inherited
(`none`, no file created for stderr) even though stdout is redirected to
`f` by the later operator. -/
theorem C4_redirection_scan :
    (∀ env rest clean so se fs,
        redirScan env ("2>&1".data :: rest) clean so se fs = redirScan env rest clean so so fs)
    ∧ (∀ env rest clean so se fs f, env.openOk f = true →
        redirScan env (">".data :: f :: rest) clean so se fs
          = redirScan env rest clean (some f) se (fsSet fs f []))
    ∧ (∀ env rest clean so se fs f, env.openOk f = true →
        redirScan env ("1>".data :: f :: rest) clean so se fs
          = redirScan env rest clean (some f) se (fsSet fs f []))
    ∧ (∀ env rest clean so se fs f, env.openOk f = true →
        redirScan env (">>".data :: f :: rest) clean so se fs
          = redirScan env rest clean (some f) se (fsTouch fs f))
    ∧ (∀ env rest clean so se fs f, env.openOk f = true →
        redirScan env ("1>>".data :: f :: rest) clean so se fs
          = redirScan env rest clean (some f) se (fsTouch fs f))
    ∧ (∀ env rest clean so se fs f, env.openOk f = true →
        redirScan env ("2>".data :: f :: rest) clean so se fs
          = redirScan env rest clean so (some f) (fsSet fs f []))
    ∧ (∀ env rest clean so se fs f, env.openOk f = true →
        redirScan env ("2>>".data :: f :: rest) clean so se fs
          = redirScan env rest clean so (some f) (fsTouch fs f))
    ∧ (∀ env rest clean so se fs f, env.openOk f = true →
        redirScan env ("&>".data :: f :: rest) clean so se fs
          = redirScan env rest clean (some f) (some f) (fsSet fs f []))
    ∧ (∀ env fs f, env.openOk f = true →
        setup_redirections env ["cmd".data, "2>&1".data, ">".data, f] fs
          = (.ok (["cmd".data], some f, none), fsSet fs f [])) := by
  refine ⟨?_, ?_, ?_, ?_, ?_, ?_, ?_, ?_, ?_⟩
  · intro env rest clean so se fs
    rw [redirScan.eq_def]; simp
  · intro env rest clean so se fs f h
    rw [redirScan.eq_def]; simp [openFile, h]
  · intro env rest clean so se fs f h
    rw [redirScan.eq_def]; simp [openFile, h]
  · intro env rest clean so se fs f h
    rw [redirScan.eq_def]; simp [openFile, h]
  · intro env rest clean so se fs f h
    rw [redirScan.eq_def]; simp [openFile, h]
  · intro env rest clean so se fs f h
    rw [redirScan.eq_def]; simp [openFile, h]
  · intro env rest clean so se fs f h
    rw [redirScan.eq_def]; simp [openFile, h]
  · intro env rest clean so se fs f h
    rw [redirScan.eq_def]; simp [openFile, h]
  · intro env fs f h
    have hof : openFile env f false fs = .ok (fsSet fs f []) := by simp [openFile, h]
    unfold setup_redirections
    rw [redirScan.eq_def]
    simp +decide
    rw [redirScan.eq_def]
    simp +decide
    rw [redirScan.eq_def]
    simp +decide [hof]
    rw [redirScan.eq_def]

/-- C4, witness: the scan theorem applied at a concrete environment,
token list and file system. -/
theorem C4_redirection_scan_witness :
    setup_redirections envAll ["cmd".data, "2>&1".data, ">".data, "f".data] []
      = (.ok (["cmd".data], some "f".data, none), [("f".data, [])]) :=
  C4_redirection_scan.2.2.2.2.2.2.2.2 envAll [] "f".data rfl

/-- C1, amended: when stage i of a pipeline fails to spawn, the
orchestrator reports `command not found` naming that stage's command on the
error sink, does not construct or spawn any stage after i, and returns
immediately — the children already spawned for earlier stages (`children`)
are dropped without being waited on, and the state is left unchanged apart
from the error report (and, for a terminal stage, the file-system effects
of its redirection resolution).  The first conjunct covers a failing
non-terminal stage (no redirection resolution there); the second covers a
failing terminal stage, whose tokens have passed through
`setup_redirections` first. -/
theorem C1_amended :
    (∀ env hist seg rest children prev st name args2,
        st.panicked = false →
        splitWords seg = .ok (name :: args2) →
        rest ≠ [] →
        name ∉ BUILTINS →
        env.spawnOk name = false →
        pipedLoop env hist (seg :: rest) children prev st
          = eput env (name ++ ": command not found\n".data) st)
    ∧ (∀ env hist seg children prev st toks name args2 so se fs2,
        st.panicked = false →
        splitWords seg = .ok toks →
        toks ≠ [] →
        setup_redirections env toks st.fs = (.ok (name :: args2, so, se), fs2) →
        name ∉ BUILTINS →
        env.spawnOk name = false →
        pipedLoop env hist [seg] children prev st
          = eput env (name ++ ": command not found\n".data) { st with fs := fs2 }) := by
  constructor
  · intro env hist seg rest children prev st name args2 hp hsp hrest hnb hfail
    obtain ⟨f1, c1, o1, e1, p1, pk⟩ := st
    simp only [St.panicked] at hp
    subst hp
    rw [pipedLoop.eq_def]
    simp [hsp, hrest, hnb, hfail]
  · intro env hist seg children prev st toks name args2 so se fs2 hp hsp htoks hsetup hnb hfail
    obtain ⟨f1, c1, o1, e1, p1, pk⟩ := st
    simp only [St.panicked] at hp
    subst hp
    simp only [St.fs] at hsetup
    rw [pipedLoop.eq_def]
    simp [hsp, htoks, hsetup, hnb, hfail]

/-- C1, witness: the first conjunct applied to the middle stage of a
concrete three-stage pipeline with one child already spawned, and the
second conjunct applied to the minimal orphaning instance `a | bogus`
(the terminal stage fails to spawn after `a` was spawned). -/
theorem C1_amended_witness :
    pipedLoop envC1 [] ["b".data, "c".data] ["a".data] none st0
        = eput envC1 ("b".data ++ ": command not found\n".data) st0
      ∧ pipedLoop envC1 [] ["bogus".data] ["a".data] none st0
        = eput envC1 ("bogus".data ++ ": command not found\n".data) { st0 with fs := [] } :=
  ⟨C1_amended.1 envC1 [] "b".data ["c".data] ["a".data] none st0 "b".data []
     rfl rfl (by decide) (by decide) rfl,
   C1_amended.2 envC1 [] "bogus".data ["a".data] none st0 ["bogus".data] "bogus".data []
     none none [] rfl rfl (by decide) rfl (by decide) rfl⟩

/-- C2, amended: a stage whose text fails to tokenize causes a ParseError
report and abandons the pipeline from that stage onward — the malformed
stage and every later stage do not execute, and (in `run_piped_commands`)
children spawned for earlier stages are dropped unawaited; only when the
malformed stage is the first does no stage of the line execute at all.
The conjuncts cover the three places a stage begins executing:
`run_piped_commands`' loop, `run_pipeline_with_input`'s loop, and
`run_single_command`. -/
theorem C2_amended :
    (∀ env hist seg rest children prev st e, st.panicked = false →
        splitWords seg = .error e →
        pipedLoop env hist (seg :: rest) children prev st
          = eput env "failed to parse command input\n".data st)
    ∧ (∀ env hist seg rest input st e, st.panicked = false →
        splitWords seg = .error e →
        withInputLoop env hist (seg :: rest) input st
          = eput env "failed to parse command input\n".data st)
    ∧ (∀ env hist seg st e, st.panicked = false →
        splitWords seg = .error e →
        run_single_command env hist seg st
          = eput env "failed to parse command input\n".data st) := by
  refine ⟨?_, ?_, ?_⟩
  · intro env hist seg rest children prev st e hp hsp
    obtain ⟨f1, c1, o1, e1, p1, pk⟩ := st
    simp only [St.panicked] at hp
    subst hp
    rw [pipedLoop.eq_def]
    simp [hsp]
  · intro env hist seg rest input st e hp hsp
    obtain ⟨f1, c1, o1, e1, p1, pk⟩ := st
    simp only [St.panicked] at hp
    subst hp
    rw [withInputLoop.eq_def]
    simp [hsp]
  · intro env hist seg st e hp hsp
    obtain ⟨f1, c1, o1, e1, p1, pk⟩ := st
    simp only [St.panicked] at hp
    subst hp
    simp [run_single_command, hsp]

/-- C2, witness: the amended theorem applied to a concrete malformed first
stage. -/
theorem C2_amended_witness :
    pipedLoop envAll [] ["'bad".data, "x".data] [] none st0
      = eput envAll "failed to parse command input\n".data st0 :=
  C2_amended.1 envAll [] "'bad".data ["x".data] [] none st0 () rfl rfl

/-- C8, amended: when the redirection scan reaches a filename-taking
operator with no following token, resolution fails with the ParseError
naming the missing-filename condition, and the stage carrying it is not
executed — no process is spawned for that stage (the state is unchanged
apart from the error report); for a single-stage line this means no process
at all is spawned for the line, while earlier stages of a multi-stage line
may already have spawned.  The last three conjuncts cover the three places
the terminal stage's redirections are resolved. -/
theorem C8_amended :
    (∀ env clean so se fs op, op ∈ fileRedirOps →
        redirScan env [op] clean so se fs = (.error (missingMsg op), fs))
    ∧ (∀ env hist seg children prev st toks e fs2, st.panicked = false →
        splitWords seg = .ok toks → toks ≠ [] →
        setup_redirections env toks st.fs = (.error e, fs2) →
        pipedLoop env hist [seg] children prev st
          = eput env (e ++ "\n".data) { st with fs := fs2 })
    ∧ (∀ env hist seg input st toks e fs2, st.panicked = false →
        splitWords seg = .ok toks → toks ≠ [] →
        setup_redirections env toks st.fs = (.error e, fs2) →
        withInputLoop env hist [seg] input st
          = eput env (e ++ "\n".data) { st with fs := fs2 })
    ∧ (∀ env hist seg st toks e fs2, st.panicked = false →
        splitWords seg = .ok toks → toks ≠ [] →
        setup_redirections env toks st.fs = (.error e, fs2) →
        run_single_command env hist seg st
          = eput env (e ++ "\n".data) { st with fs := fs2 }) := by
  refine ⟨?_, ?_, ?_, ?_⟩
  · intro env clean so se fs op h
    simp only [fileRedirOps, List.mem_cons, List.not_mem_nil, or_false] at h
    rcases h with rfl | rfl | rfl | rfl | rfl | rfl | rfl <;>
      (rw [redirScan.eq_def]; simp +decide [missingMsg])
  · intro env hist seg children prev st toks e fs2 hp hsp htoks hsetup
    obtain ⟨f1, c1, o1, e1, p1, pk⟩ := st
    simp only [St.panicked] at hp
    subst hp
    simp only [St.fs] at hsetup
    rw [pipedLoop.eq_def]
    simp [hsp, htoks, hsetup]
  · intro env hist seg input st toks e fs2 hp hsp htoks hsetup
    obtain ⟨f1, c1, o1, e1, p1, pk⟩ := st
    simp only [St.panicked] at hp
    subst hp
    simp only [St.fs] at hsetup
    rw [withInputLoop.eq_def]
    simp [hsp, htoks, hsetup]
  · intro env hist seg st toks e fs2 hp hsp htoks hsetup
    obtain ⟨f1, c1, o1, e1, p1, pk⟩ := st
    simp only [St.panicked] at hp
    subst hp
    simp only [St.fs] at hsetup
    simp [run_single_command, hsp, htoks, hsetup]

/-- C8, witness: the scan conjunct applied to a concrete dangling `>`, and
the single-command conjunct applied to the line `echo hi >`. -/
theorem C8_amended_witness :
    redirScan envAll [">".data] [] none none []
        = (.error (missingMsg ">".data), [])
      ∧ run_single_command envAll [] "echo hi >".data st0
        = eput envAll ("Missing filename for stdout".data ++ "\n".data) st0 :=
  ⟨C8_amended.1 envAll [] none none [] ">".data (by decide),
   C8_amended.2.2.2 envAll [] "echo hi >".data st0
     ["echo".data, "hi".data, ">".data] "Missing filename for stdout".data []
     rfl rfl (by decide) rfl⟩

/-- Looking up a path just written by `fsSet` yields the written contents. -/
theorem fsGet_fsSet (fs : FS) (p v : Str) : fsGet (fsSet fs p v) p = some v := by
  induction fs with
  | nil => simp [fsSet, fsGet]
  | cons head tail ih =>
    obtain ⟨q, w⟩ := head
    by_cases h : q = p
    · subst h
      simp [fsSet, fsGet]
    · simp [fsSet, fsGet, h, ih]

/-- Running `echo hi > out.txt` truncates `out.txt` and writes `hi\n`. -/
theorem echo_trunc (env : Env) (hist : List Str) (st : St)
    (hp : st.panicked = false)
    (ho : env.openOk "out.txt".data = true)
    (hf : env.fileOk = true) :
    run_pipeline env hist "echo hi > out.txt".data st
      = { st with fs := fsApp (fsSet st.fs "out.txt".data []) "out.txt".data "hi\n".data,
                  procs := st.procs ++ [.runBuiltin "echo".data] } := by
  obtain ⟨f1, c1, o1, e1, p1, pk⟩ := st
  simp only [St.panicked] at hp
  subst hp
  have hparse : parse_pipeline "echo hi > out.txt".data = ["echo hi > out.txt".data] := by decide
  have hsp : splitWords "echo hi > out.txt".data
      = .ok ["echo".data, "hi".data, ">".data, "out.txt".data] := by rfl
  have hof : openFile env "out.txt".data false f1 = .ok (fsSet f1 "out.txt".data []) := by
    simp [openFile, ho]
  have hsetup : setup_redirections env ["echo".data, "hi".data, ">".data, "out.txt".data] f1
      = (.ok (["echo".data, "hi".data], some "out.txt".data, none), fsSet f1 "out.txt".data []) := by
    unfold setup_redirections
    rw [redirScan.eq_def]
    simp +decide
    rw [redirScan.eq_def]
    simp +decide
    rw [redirScan.eq_def]
    simp +decide [hof]
    rw [redirScan.eq_def]
  simp +decide [run_pipeline, run_single_command, hparse, hsp, hsetup, mkIo,
    dispatchBuiltin, handle_echo, addEv, stWrite, hf, joinSp, BUILTINS]

/-- Running `echo bye >> out.txt` opens `out.txt` in append mode (keeping
its contents) and appends `bye\n`. -/
theorem echo_append (env : Env) (hist : List Str) (st : St)
    (hp : st.panicked = false)
    (ho : env.openOk "out.txt".data = true)
    (hf : env.fileOk = true) :
    run_pipeline env hist "echo bye >> out.txt".data st
      = { st with fs := fsApp (fsTouch st.fs "out.txt".data) "out.txt".data "bye\n".data,
                  procs := st.procs ++ [.runBuiltin "echo".data] } := by
  obtain ⟨f1, c1, o1, e1, p1, pk⟩ := st
  simp only [St.panicked] at hp
  subst hp
  have hparse : parse_pipeline "echo bye >> out.txt".data = ["echo bye >> out.txt".data] := by
    decide
  have hsp : splitWords "echo bye >> out.txt".data
      = .ok ["echo".data, "bye".data, ">>".data, "out.txt".data] := by rfl
  have hof : openFile env "out.txt".data true f1 = .ok (fsTouch f1 "out.txt".data) := by
    simp [openFile, ho]
  have hsetup : setup_redirections env ["echo".data, "bye".data, ">>".data, "out.txt".data] f1
      = (.ok (["echo".data, "bye".data], some "out.txt".data, none), fsTouch f1 "out.txt".data) := by
    unfold setup_redirections
    rw [redirScan.eq_def]
    simp +decide
    rw [redirScan.eq_def]
    simp +decide
    rw [redirScan.eq_def]
    simp +decide [hof]
    rw [redirScan.eq_def]
  simp +decide [run_pipeline, run_single_command, hparse, hsp, hsetup, mkIo,
    dispatchBuiltin, handle_echo, addEv, stWrite, hf, joinSp, BUILTINS]

/-- C9: `>` opens its target truncating any existing contents while `>>`
opens it in append mode preserving existing contents (creating it when
absent); consequently running `echo hi > out.txt` and then
`echo bye >> out.txt` leaves `out.txt` containing exactly `hi\nbye\n`,
from any starting file system. -/
theorem C9_truncate_append :
    (∀ env fs p, env.openOk p = true → openFile env p false fs = .ok (fsSet fs p []))
    ∧ (∀ env fs p, env.openOk p = true → openFile env p true fs = .ok (fsTouch fs p))
    ∧ (∀ fs p v, fsGet fs p = some v → fsTouch fs p = fs)
    ∧ (∀ env hist st, st.panicked = false → env.openOk "out.txt".data = true →
        env.fileOk = true →
        fsGet ((run_pipeline env hist "echo bye >> out.txt".data
                  (run_pipeline env hist "echo hi > out.txt".data st)).fs) "out.txt".data
          = some "hi\nbye\n".data) := by
  refine ⟨?_, ?_, ?_, ?_⟩
  · intro env fs p h
    simp [openFile, h]
  · intro env fs p h
    simp [openFile, h]
  · intro fs p v h
    simp [fsTouch, h]
  · intro env hist st hp ho hf
    rw [echo_trunc env hist st hp ho hf]
    rw [echo_append env hist _ (by simp [hp]) ho hf]
    simp [fsApp, fsTouch, fsGet_fsSet]

/-- C9, witness: the scenario conjunct applied at a concrete environment
and fresh state. -/
theorem C9_truncate_append_witness :
    fsGet ((run_pipeline envAll [] "echo bye >> out.txt".data
              (run_pipeline envAll [] "echo hi > out.txt".data st0)).fs) "out.txt".data
      = some "hi\nbye\n".data :=
  C9_truncate_append.2.2.2 envAll [] st0 rfl rfl rfl

theorem dropWhile_idem (p : Char → Bool) (l : Str) :
    List.dropWhile p (List.dropWhile p l) = List.dropWhile p l := by
  induction l with
  | nil => simp
  | cons a l ih =>
    by_cases h : p a
    · simp [List.dropWhile_cons, h, ih]
    · simp [List.dropWhile_cons, h]

theorem dropWhile_length_le (p : Char → Bool) (l : Str) :
    (List.dropWhile p l).length ≤ l.length := by
  induction l with
  | nil => simp
  | cons a l ih =>
    by_cases h : p a
    · simp only [List.dropWhile_cons, h, if_true, List.length_cons]
      omega
    · simp [List.dropWhile_cons, h]

theorem head_not_of_dropWhile_self (p : Char → Bool) (a : Char) (t : Str)
    (hl : List.dropWhile p (a :: t) = a :: t) : p a = false := by
  by_contra hcon
  rw [Bool.not_eq_false] at hcon
  rw [List.dropWhile_cons] at hl
  simp only [hcon, if_true] at hl
  have hle := dropWhile_length_le p t
  rw [hl] at hle
  simp at hle

theorem trimChars_idem (cs : Str) : trimChars (trimChars cs) = trimChars cs := by
  unfold trimChars
  set u := List.dropWhile Char.isWhitespace cs with hu
  set v := List.dropWhile Char.isWhitespace u.reverse with hv
  have pu : List.dropWhile Char.isWhitespace u = u := by
    rw [hu]; exact dropWhile_idem _ _
  have pv : List.dropWhile Char.isWhitespace v = v := by
    rw [hv]; exact dropWhile_idem _ _
  have hstep : List.dropWhile Char.isWhitespace v.reverse = v.reverse := by
    cases hvr : v.reverse with
    | nil => simp
    | cons a t =>
      have hsuf : v <:+ u.reverse := by
        rw [hv]; exact List.dropWhile_suffix _
      obtain ⟨w, hw⟩ := hsuf
      have hu2 : u = a :: (t ++ w.reverse) := by
        have h2 := congrArg List.reverse hw
        simp only [List.reverse_append, List.reverse_reverse] at h2
        rw [hvr] at h2
        simpa [List.cons_append] using h2.symm
      rw [hu2] at pu
      have ha := head_not_of_dropWhile_self _ _ _ pu
      simp [List.dropWhile_cons, ha]
  rw [hstep, List.reverse_reverse, pv]

theorem trimFilter_good (cur : Str) (s : Str) (h : s ∈ trimFilter cur) :
    s ≠ [] ∧ trimChars s = s := by
  unfold trimFilter at h
  by_cases he : trimChars cur = []
  · simp [he] at h
  · simp [he] at h
    subst h
    exact ⟨he, trimChars_idem cur⟩

theorem segWorker_good (input : Str) :
    ∀ cur sq dq segs, (∀ s ∈ segs, s ≠ [] ∧ trimChars s = s) →
      ∀ s ∈ segWorker input cur sq dq segs, s ≠ [] ∧ trimChars s = s := by
  induction input with
  | nil =>
    intro cur sq dq segs hsegs s hs
    rw [segWorker] at hs
    rcases List.mem_append.mp hs with h | h
    · exact hsegs s h
    · exact trimFilter_good cur s h
  | cons c rest ih =>
    intro cur sq dq segs hsegs s hs
    rw [segWorker.eq_def] at hs
    by_cases h1 : c = '\'' ∧ ¬dq
    · simp only [h1, if_true] at hs
      exact ih _ _ _ _ hsegs s hs
    · by_cases h2 : c = '"' ∧ ¬sq
      · simp only [h1, h2, if_false, if_true] at hs
        exact ih _ _ _ _ hsegs s hs
      · by_cases h3 : c = '|' ∧ ¬sq ∧ ¬dq
        · simp only [h1, h2, h3, if_false, if_true] at hs
          refine ih _ _ _ _ ?_ s hs
          intro x hx
          rcases List.mem_append.mp hx with h | h
          · exact hsegs x h
          · exact trimFilter_good cur x h
        · simp only [h1, h2, h3, if_false] at hs
          exact ih _ _ _ _ hsegs s hs

theorem segWorker_plain_advance (p : Str) :
    ∀ rest cur segs, plainSeg p → segWorker (p ++ rest) cur false false segs
      = segWorker rest (cur ++ p) false false segs := by
  induction p with
  | nil =>
    intro rest cur segs _
    simp
  | cons c q ih =>
    intro rest cur segs hp
    simp only [plainSeg, List.mem_cons, not_or] at hp
    obtain ⟨⟨hc1, hq1⟩, ⟨hc2, hq2⟩, ⟨hc3, hq3⟩⟩ := hp
    rw [List.cons_append, segWorker.eq_def]
    have e1 : ¬(c = '\'' ∧ ¬false) := by
      intro h
      exact hc2 h.1.symm
    have e2 : ¬(c = '"' ∧ ¬false) := by
      intro h
      exact hc3 h.1.symm
    have e3 : ¬(c = '|' ∧ ¬false ∧ ¬false) := by
      intro h
      exact hc1 h.1.symm
    simp only [e1, e2, e3, if_false]
    rw [ih rest (cur ++ [c]) segs ⟨hq1, hq2, hq3⟩]
    simp

theorem segWorker_interPipe (parts : List Str) :
    ∀ segs, (∀ p ∈ parts, plainSeg p) →
      segWorker (interPipe parts) [] false false segs
        = segs ++ parts.flatMap trimFilter := by
  induction parts with
  | nil =>
    intro segs _
    simp [interPipe, segWorker]
    decide
  | cons p ps ih =>
    intro segs hplain
    cases ps with
    | nil =>
      have hp := hplain p (List.mem_cons_self p [])
      have hadv := segWorker_plain_advance p [] [] segs hp
      simp only [List.append_nil] at hadv
      simp only [interPipe]
      rw [hadv]
      rw [segWorker]
      simp
    | cons q qs =>
      have hp := hplain p (List.mem_cons_self p (q :: qs))
      have hrest : ∀ r ∈ q :: qs, plainSeg r := by
        intro r hr
        exact hplain r (List.mem_cons_of_mem p hr)
      simp only [interPipe]
      rw [segWorker_plain_advance p ('|' :: interPipe (q :: qs)) [] segs hp]
      rw [segWorker.eq_def]
      simp only [List.nil_append]
      rw [if_neg (by simp), if_neg (by simp), if_pos (by simp)]
      rw [ih (segs ++ trimFilter p) hrest]
      simp

/-- C7: the line segmenter splits at `|` only when neither quote flag is
set (first conjunct; the `|` is literal text when either flag is set —
second and third); `'` toggles the single-quote flag only outside double
quotes and `"` toggles the double-quote flag only outside single quotes
(fourth through seventh); every produced segment is trimmed and nonempty
(eighth); for plain stage texts joined by `|` the output is exactly the
trimmed nonempty segments in input order, so `a | | b` yields exactly two
stages (ninth through eleventh). -/
theorem C7_segmenter :
    (∀ rest cur segs, segWorker ('|' :: rest) cur false false segs
        = segWorker rest [] false false (segs ++ trimFilter cur))
    ∧ (∀ rest cur segs dq, segWorker ('|' :: rest) cur true dq segs
        = segWorker rest (cur ++ ['|']) true dq segs)
    ∧ (∀ rest cur segs sq, segWorker ('|' :: rest) cur sq true segs
        = segWorker rest (cur ++ ['|']) sq true segs)
    ∧ (∀ rest cur segs sq, segWorker ('\'' :: rest) cur sq false segs
        = segWorker rest (cur ++ ['\'']) (!sq) false segs)
    ∧ (∀ rest cur segs sq, segWorker ('\'' :: rest) cur sq true segs
        = segWorker rest (cur ++ ['\'']) sq true segs)
    ∧ (∀ rest cur segs dq, segWorker ('"' :: rest) cur false dq segs
        = segWorker rest (cur ++ ['"']) false (!dq) segs)
    ∧ (∀ rest cur segs dq, segWorker ('"' :: rest) cur true dq segs
        = segWorker rest (cur ++ ['"']) true dq segs)
    ∧ (∀ input s, s ∈ parse_pipeline input → s ≠ [] ∧ trimChars s = s)
    ∧ (∀ parts, (∀ p ∈ parts, plainSeg p) →
        parse_pipeline (interPipe parts) = parts.flatMap trimFilter)
    ∧ parse_pipeline "a | | b".data = ["a".data, "b".data]
    ∧ parse_pipeline "a '|' b".data = ["a '|' b".data] := by
  refine ⟨?_, ?_, ?_, ?_, ?_, ?_, ?_, ?_, ?_, ?_, ?_⟩
  · intro rest cur segs
    rw [segWorker.eq_def]
    simp +decide
  · intro rest cur segs dq
    rw [segWorker.eq_def]
    simp +decide
  · intro rest cur segs sq
    rw [segWorker.eq_def]
    simp +decide
  · intro rest cur segs sq
    rw [segWorker.eq_def]
    simp +decide
  · intro rest cur segs sq
    rw [segWorker.eq_def]
    simp +decide
  · intro rest cur segs dq
    rw [segWorker.eq_def]
    simp +decide
  · intro rest cur segs dq
    rw [segWorker.eq_def]
    simp +decide
  · intro input s hs
    exact segWorker_good input [] false false [] (by simp) s hs
  · intro parts hplain
    unfold parse_pipeline
    rw [segWorker_interPipe parts [] hplain]
    simp
  · decide
  · decide

/-- C7, witness: the plain-splitting conjunct applied to concrete parts
whose middle segment trims to empty. -/
theorem C7_segmenter_witness :
    (∀ p ∈ (["a".data, " ".data, "b".data] : List Str), plainSeg p)
      ∧ parse_pipeline (interPipe ["a".data, " ".data, "b".data]) = ["a".data, "b".data] :=
  ⟨by decide, by
    rw [C7_segmenter.2.2.2.2.2.2.2.2.1 ["a".data, " ".data, "b".data] (by decide)]
    decide⟩

theorem stWrite_fst_procs (env : Env) (isErr : Bool) (s : WSink) (bytes : Str)
    (st : St) (buf : Str) : ((stWrite env isErr s bytes st buf).1).procs = st.procs := by
  unfold stWrite
  repeat' split
  all_goals rfl

theorem stWrite_fst_panfree (env : Env) (isErr : Bool) (s : WSink) (bytes : Str)
    (st : St) (buf : Str)
    (ho : env.stdoutOk = true) (he : env.stderrOk = true) (hf : env.fileOk = true)
    (hp : st.panicked = false) :
    ((stWrite env isErr s bytes st buf).1).panicked = false := by
  unfold stWrite
  repeat' split
  all_goals simp_all

theorem addEv_procs (st : St) (e : PEv) :
    (addEv st e).procs = st.procs ∨ (addEv st e).procs = st.procs ++ [e] := by
  unfold addEv
  split
  · exact Or.inl rfl
  · exact Or.inr rfl

theorem addEv_pan (st : St) (e : PEv) : (addEv st e).panicked = st.panicked := by
  unfold addEv
  split <;> rfl

theorem eput_procs (env : Env) (bytes : Str) (st : St) :
    (eput env bytes st).procs = st.procs := stWrite_fst_procs ..

theorem oput_procs (env : Env) (bytes : Str) (st : St) :
    (oput env bytes st).procs = st.procs := stWrite_fst_procs ..

theorem handle_cd_procs (env : Env) (tokens : List Str) (io : ShellIo) (st : St) (buf : Str) :
    ((handle_cd env tokens io st buf).1).procs = st.procs := by
  unfold handle_cd
  dsimp only
  repeat' split
  all_goals first | rfl | apply stWrite_fst_procs

theorem handle_echo_procs (env : Env) (tokens : List Str) (io : ShellIo) (st : St) (buf : Str) :
    ((handle_echo env tokens io st buf).1).procs = st.procs := stWrite_fst_procs ..

theorem handle_history_procs (env : Env) (hist : List Str) (io : ShellIo) (st : St) (buf : Str) :
    ((handle_history env hist io st buf).1).procs = st.procs := by
  unfold handle_history
  generalize hist.enum = l
  induction l generalizing st buf with
  | nil => rfl
  | cons a l ih =>
    rw [List.foldl_cons]
    rw [show (stWrite env false io.outS (histLine a) st buf)
          = ((stWrite env false io.outS (histLine a) st buf).1,
             (stWrite env false io.outS (histLine a) st buf).2) from rfl]
    rw [ih]
    apply stWrite_fst_procs

theorem handle_pwd_procs (env : Env) (io : ShellIo) (st : St) (buf : Str) :
    ((handle_pwd env io st buf).1).procs = st.procs := by
  unfold handle_pwd
  split
  all_goals apply stWrite_fst_procs

theorem handle_type_procs (env : Env) (tokens : List Str) (io : ShellIo) (st : St) (buf : Str) :
    ((handle_type env tokens io st buf).1).procs = st.procs := by
  unfold handle_type
  dsimp only
  repeat' split
  all_goals first | rfl | apply stWrite_fst_procs

theorem dispatchBuiltin_procs (env : Env) (hist : List Str) (name : Str) (tokens : List Str)
    (io : ShellIo) (st : St) (buf : Str) :
    ((dispatchBuiltin env hist name tokens io st buf).1).procs = st.procs := by
  unfold dispatchBuiltin
  repeat' split
  · apply handle_cd_procs
  · apply handle_echo_procs
  · apply handle_history_procs
  · apply handle_pwd_procs
  · apply handle_type_procs
  · rfl

theorem handle_cd_panfree (env : Env) (tokens : List Str) (io : ShellIo) (st : St) (buf : Str)
    (ho : env.stdoutOk = true) (he : env.stderrOk = true) (hf : env.fileOk = true)
    (hp : st.panicked = false) :
    ((handle_cd env tokens io st buf).1).panicked = false := by
  unfold handle_cd
  dsimp only
  repeat' split
  all_goals first | exact hp | (apply stWrite_fst_panfree <;> assumption)

theorem handle_echo_panfree (env : Env) (tokens : List Str) (io : ShellIo) (st : St) (buf : Str)
    (ho : env.stdoutOk = true) (he : env.stderrOk = true) (hf : env.fileOk = true)
    (hp : st.panicked = false) :
    ((handle_echo env tokens io st buf).1).panicked = false :=
  stWrite_fst_panfree _ _ _ _ _ _ ho he hf hp

theorem handle_history_panfree (env : Env) (hist : List Str) (io : ShellIo) (st : St) (buf : Str)
    (ho : env.stdoutOk = true) (he : env.stderrOk = true) (hf : env.fileOk = true)
    (hp : st.panicked = false) :
    ((handle_history env hist io st buf).1).panicked = false := by
  unfold handle_history
  generalize hist.enum = l
  induction l generalizing st buf with
  | nil => exact hp
  | cons a l ih =>
    rw [List.foldl_cons]
    rw [show (stWrite env false io.outS (histLine a) st buf)
          = ((stWrite env false io.outS (histLine a) st buf).1,
             (stWrite env false io.outS (histLine a) st buf).2) from rfl]
    exact ih _ _ (stWrite_fst_panfree _ _ _ _ _ _ ho he hf hp)

theorem handle_pwd_panfree (env : Env) (io : ShellIo) (st : St) (buf : Str)
    (ho : env.stdoutOk = true) (he : env.stderrOk = true) (hf : env.fileOk = true)
    (hp : st.panicked = false) :
    ((handle_pwd env io st buf).1).panicked = false := by
  unfold handle_pwd
  split
  all_goals apply stWrite_fst_panfree <;> assumption

theorem handle_type_panfree (env : Env) (tokens : List Str) (io : ShellIo) (st : St) (buf : Str)
    (ho : env.stdoutOk = true) (he : env.stderrOk = true) (hf : env.fileOk = true)
    (hp : st.panicked = false) :
    ((handle_type env tokens io st buf).1).panicked = false := by
  unfold handle_type
  dsimp only
  repeat' split
  all_goals first | exact hp | (apply stWrite_fst_panfree <;> assumption)

theorem dispatchBuiltin_panfree (env : Env) (hist : List Str) (name : Str) (tokens : List Str)
    (io : ShellIo) (st : St) (buf : Str)
    (ho : env.stdoutOk = true) (he : env.stderrOk = true) (hf : env.fileOk = true)
    (hp : st.panicked = false) :
    ((dispatchBuiltin env hist name tokens io st buf).1).panicked = false := by
  unfold dispatchBuiltin
  repeat' split
  · exact handle_cd_panfree _ _ _ _ _ ho he hf hp
  · exact handle_echo_panfree _ _ _ _ _ ho he hf hp
  · exact handle_history_panfree _ _ _ _ _ ho he hf hp
  · exact handle_pwd_panfree _ _ _ _ ho he hf hp
  · exact handle_type_panfree _ _ _ _ _ ho he hf hp
  · exact hp

theorem mem_addEv {x : PEv} {st : St} {e : PEv} (h : x ∈ (addEv st e).procs) :
    x ∈ st.procs ∨ x = e := by
  unfold addEv at h
  split at h
  · exact Or.inl h
  · rcases List.mem_append.mp h with h | h
    · exact Or.inl h
    · simp at h
      exact Or.inr h

theorem addEv_procs_of {st : St} (e : PEv) (hp : st.panicked = false) :
    (addEv st e).procs = st.procs ++ [e] := by
  simp [addEv, hp]

theorem mem_waitFold {x : PEv} (children : List Str) :
    ∀ st : St, x ∈ (children.foldl (fun s n => addEv s (.waitChild n)) st).procs →
      x ∈ st.procs ∨ ∃ n, x = PEv.waitChild n := by
  induction children with
  | nil =>
    intro st h
    exact Or.inl h
  | cons n l ih =>
    intro st h
    rw [List.foldl_cons] at h
    rcases ih _ h with h2 | h2
    · rcases mem_addEv h2 with h3 | h3
      · exact Or.inl h3
      · exact Or.inr ⟨n, h3⟩
    · exact Or.inr h2

theorem mem_for_pipe {x : PEv} {env : Env} {hist : List Str} {tokens : List Str}
    {stdin : Option Str} {st : St}
    (h : x ∈ ((run_builtin_for_pipe env hist tokens stdin st).1).procs) :
    x ∈ st.procs ∨ ∃ n, x = PEv.runBuiltin n := by
  unfold run_builtin_for_pipe at h
  rw [dispatchBuiltin_procs] at h
  rcases mem_addEv h with h | h
  · exact Or.inl h
  · exact Or.inr ⟨_, h⟩

theorem mem_with_bytes {x : PEv} {env : Env} {hist : List Str} {tokens : List Str}
    {input : Str} {st : St}
    (h : x ∈ ((run_builtin_with_bytes env hist tokens input st).1).procs) :
    x ∈ st.procs ∨ ∃ n, x = PEv.runBuiltin n := by
  unfold run_builtin_with_bytes at h
  rw [dispatchBuiltin_procs] at h
  rcases mem_addEv h with h | h
  · exact Or.inl h
  · exact Or.inr ⟨_, h⟩

theorem mem_run_external {x : PEv} {env : Env} {tokens : List Str} {io : ShellIo} {st : St}
    (hin : io.stdin = none)
    (h : x ∈ (run_external env tokens io st).procs) :
    x ∈ st.procs ∨ (∃ n a i o e, x = PEv.spawn n a i o e) ∨ ∃ n, x = PEv.waitChild n := by
  unfold run_external at h
  rw [hin] at h
  dsimp only at h
  split at h
  · exact Or.inl h
  · split at h
    · split at h <;> split at h <;>
        (try rw [stWrite_fst_procs] at h) <;> (try rw [stWrite_fst_procs] at h) <;>
        · rcases mem_addEv h with h2 | h2
          · rcases mem_addEv h2 with h3 | h3
            · exact Or.inl h3
            · exact Or.inr (Or.inl ⟨_, _, _, _, _, h3⟩)
          · exact Or.inr (Or.inr ⟨_, h2⟩)
    · rw [stWrite_fst_procs] at h
      exact Or.inl h


theorem mem_addEv3 {x : PEv} {st2 : St} {n : Str} {a : List Str} {o e : StdioCfg}
    {b w : Str}
    (h : x ∈ (addEv (addEv (addEv st2 (PEv.spawn n a .piped o e)) (PEv.copyTask b))
          (PEv.waitChild w)).procs) :
    x ∈ st2.procs ∨ ((∀ b2, x ≠ PEv.inlineFeed b2) ∧ ∀ c, x ≠ PEv.exitProcess c) := by
  rcases mem_addEv h with h1 | h1
  · rcases mem_addEv h1 with h2 | h2
    · rcases mem_addEv h2 with h3 | h3
      · exact Or.inl h3
      · subst h3
        exact Or.inr ⟨by simp, by simp⟩
    · subst h2
      exact Or.inr ⟨by simp, by simp⟩
  · subst h1
    exact Or.inr ⟨by simp, by simp⟩

theorem mem_runBuiltin_ne {x : PEv} {n : Str} (h : x = PEv.runBuiltin n) :
    (∀ b2, x ≠ PEv.inlineFeed b2) ∧ ∀ c, x ≠ PEv.exitProcess c := by
  subst h
  exact ⟨by simp, by simp⟩

set_option maxHeartbeats 1000000 in
theorem mem_withInputLoop {x : PEv} (env : Env) (hist : List Str) :
    ∀ (segs : List Str) (input : Str) (st : St),
      x ∈ (withInputLoop env hist segs input st).procs →
      x ∈ st.procs ∨ ((∀ b, x ≠ PEv.inlineFeed b) ∧ ∀ c, x ≠ PEv.exitProcess c) := by
  intro segs
  induction segs with
  | nil =>
    intro input st h
    exact Or.inl h
  | cons seg rest ih =>
    intro input st h
    rw [withInputLoop.eq_def] at h
    dsimp only at h
    split at h
    · exact Or.inl h
    · split at h
      · rw [eput_procs] at h
        exact Or.inl h
      · split at h
        · exact ih _ _ h
        · split at h
          · rw [eput_procs] at h
            exact Or.inl h
          · split at h
            · rcases ih _ _ h with h2 | h2
              · exact Or.inl h2
              · exact Or.inr h2
            · split at h
              · split at h
                · rw [oput_procs] at h
                  rcases mem_with_bytes h with h2 | ⟨n, h2⟩
                  · exact Or.inl h2
                  · exact Or.inr (mem_runBuiltin_ne h2)
                · rcases ih _ _ h with h2 | h2
                  · rcases mem_with_bytes h2 with h3 | ⟨n, h3⟩
                    · exact Or.inl h3
                    · exact Or.inr (mem_runBuiltin_ne h3)
                  · exact Or.inr h2
              · split at h
                · split at h
                  · split at h
                    · rcases mem_addEv3 h with h2 | h2
                      · exact Or.inl h2
                      · exact Or.inr h2
                    · rw [oput_procs] at h
                      rcases mem_addEv3 h with h2 | h2
                      · exact Or.inl h2
                      · exact Or.inr h2
                  · rcases ih _ _ h with h2 | h2
                    · rcases mem_addEv3 h2 with h3 | h3
                      · exact Or.inl h3
                      · exact Or.inr h3
                    · exact Or.inr h2
                · rw [eput_procs] at h
                  exact Or.inl h

theorem mem_spawn_ne {x : PEv} {n : Str} {a : List Str} {i o e : StdioCfg}
    (h : x = PEv.spawn n a i o e) :
    (∀ b2, x ≠ PEv.inlineFeed b2) ∧ ∀ c, x ≠ PEv.exitProcess c := by
  subst h
  exact ⟨by simp, by simp⟩

theorem mem_pipeCopy_ne {x : PEv} {b : Str} (h : x = PEv.pipeCopy b) :
    (∀ b2, x ≠ PEv.inlineFeed b2) ∧ ∀ c, x ≠ PEv.exitProcess c := by
  subst h
  exact ⟨by simp, by simp⟩

theorem mem_waitChild_ne {x : PEv} {n : Str} (h : x = PEv.waitChild n) :
    (∀ b2, x ≠ PEv.inlineFeed b2) ∧ ∀ c, x ≠ PEv.exitProcess c := by
  subst h
  exact ⟨by simp, by simp⟩

theorem mem_run_pipeline_with_input {x : PEv} {env : Env} {hist : List Str}
    {segs : List Str} {input : Str} {st : St}
    (h : x ∈ (run_pipeline_with_input env hist segs input st).procs) :
    x ∈ st.procs ∨ ((∀ b, x ≠ PEv.inlineFeed b) ∧ ∀ c, x ≠ PEv.exitProcess c) := by
  unfold run_pipeline_with_input at h
  split at h
  · rw [oput_procs] at h
    exact Or.inl h
  · exact mem_withInputLoop env hist _ _ _ h

set_option maxHeartbeats 1000000 in
theorem mem_pipedLoop {x : PEv} (env : Env) (hist : List Str) :
    ∀ (segs children : List Str) (prev : Option Str) (st : St),
      x ∈ (pipedLoop env hist segs children prev st).procs →
      x ∈ st.procs ∨ ((∀ b, x ≠ PEv.inlineFeed b) ∧ ∀ c, x ≠ PEv.exitProcess c) := by
  intro segs
  induction segs with
  | nil =>
    intro children prev st h
    rcases mem_waitFold children st h with h2 | ⟨n, h2⟩
    · exact Or.inl h2
    · exact Or.inr (mem_waitChild_ne h2)
  | cons seg rest ih =>
    intro children prev st h
    rw [pipedLoop.eq_def] at h
    dsimp only at h
    split at h
    · exact Or.inl h
    · split at h
      · rw [eput_procs] at h
        exact Or.inl h
      · split at h
        · exact ih _ _ _ h
        · split at h
          · rw [eput_procs] at h
            exact Or.inl h
          · split at h
            · rcases ih _ _ _ h with h2 | h2
              · exact Or.inl h2
              · exact Or.inr h2
            · split at h
              · split at h
                · rcases mem_waitFold _ _ h with h2 | ⟨n, h2⟩
                  · rw [oput_procs] at h2
                    rcases mem_for_pipe h2 with h3 | ⟨n2, h3⟩
                    · exact Or.inl h3
                    · exact Or.inr (mem_runBuiltin_ne h3)
                  · exact Or.inr (mem_waitChild_ne h2)
                · rcases mem_run_pipeline_with_input h with h2 | h2
                  · rcases mem_for_pipe h2 with h3 | ⟨n2, h3⟩
                    · exact Or.inl h3
                    · exact Or.inr (mem_runBuiltin_ne h3)
                  · exact Or.inr h2
              · split at h
                · rcases ih _ _ _ h with h2 | h2
                  · split at h2
                    · split at h2
                      · rcases mem_addEv h2 with h3 | h3
                        · rcases mem_addEv h3 with h4 | h4
                          · exact Or.inl h4
                          · exact Or.inr (mem_spawn_ne h4)
                        · exact Or.inr (mem_pipeCopy_ne h3)
                      · rcases mem_addEv h2 with h3 | h3
                        · exact Or.inl h3
                        · exact Or.inr (mem_spawn_ne h3)
                    · rcases mem_addEv h2 with h3 | h3
                      · exact Or.inl h3
                      · exact Or.inr (mem_spawn_ne h3)
                  · exact Or.inr h2
                · rw [eput_procs] at h
                  exact Or.inl h

theorem mkIo_stdin (so se : Option Str) : (mkIo so se).stdin = none := by
  cases so <;> cases se <;> rfl

set_option maxHeartbeats 1000000 in
theorem mem_run_single_command {x : PEv} {env : Env} {hist : List Str} {command : Str}
    {st : St} (h : x ∈ (run_single_command env hist command st).procs) :
    x ∈ st.procs ∨ ∀ b, x ≠ PEv.inlineFeed b := by
  unfold run_single_command at h
  split at h
  · exact Or.inl h
  · split at h
    · rw [eput_procs] at h
      exact Or.inl h
    · split at h
      · exact Or.inl h
      · split at h
        · rw [eput_procs] at h
          exact Or.inl h
        · dsimp only at h
          split at h
          · exact Or.inl h
          · split at h
            · rcases mem_addEv h with h2 | h2
              · exact Or.inl h2
              · subst h2
                exact Or.inr (by simp)
            · split at h
              · rw [dispatchBuiltin_procs] at h
                rcases mem_addEv h with h2 | h2
                · exact Or.inl h2
                · subst h2
                  exact Or.inr (by simp)
              · rcases mem_run_external (mkIo_stdin _ _) h with h2 | h2 | h2
                · exact Or.inl h2
                · obtain ⟨n, a, i, o, e, h3⟩ := h2
                  subst h3
                  exact Or.inr (by simp)
                · obtain ⟨n, h3⟩ := h2
                  subst h3
                  exact Or.inr (by simp)

theorem mem_run_pipeline {x : PEv} {env : Env} {hist : List Str} {input : Str} {st : St}
    (h : x ∈ (run_pipeline env hist input st).procs) :
    x ∈ st.procs ∨ ∀ b, x ≠ PEv.inlineFeed b := by
  unfold run_pipeline at h
  split at h
  · exact Or.inl h
  · dsimp only at h
    unfold run_piped_commands at h
    split at h
    · exact Or.inl h
    · split at h
      · exact mem_run_single_command h
      · rcases mem_pipedLoop env hist _ _ _ _ h with h2 | h2
        · exact Or.inl h2
        · exact Or.inr h2.1

theorem BufTaskOk_append {d1 d2 : List PEv} (h1 : BufTaskOk d1) (h2 : BufTaskOk d2) :
    BufTaskOk (d1 ++ d2) := by
  induction h1 with
  | nil => simpa
  | spawnStep n a o e b rest hr ih => exact BufTaskOk.spawnStep n a o e b (rest ++ d2) ih
  | skip p rest hne hr ih => exact BufTaskOk.skip p (rest ++ d2) hne ih

theorem delta_with_bytes (env : Env) (hist : List Str) (tokens : List Str) (input : Str)
    (st : St) :
    ∃ Δ, ((run_builtin_with_bytes env hist tokens input st).1).procs = st.procs ++ Δ
      ∧ BufTaskOk Δ := by
  unfold run_builtin_with_bytes
  dsimp only
  rw [dispatchBuiltin_procs]
  unfold addEv
  split
  · exact ⟨[], by simp, .nil⟩
  · exact ⟨[PEv.runBuiltin (tokens.headD [])], by simp,
      .skip _ _ (fun n a o e => by simp) .nil⟩

theorem addEv3_procs (st : St) (A B C : PEv) (hp : st.panicked = false) :
    (addEv (addEv (addEv st A) B) C).procs = st.procs ++ [A, B, C] := by
  simp [addEv, hp]

theorem delta_ext_chunk (st2 : St) (hp : st2.panicked = false) (nm : Str) (ags : List Str)
    (o e : StdioCfg) (b : Str) (w : Str) :
    (addEv (addEv (addEv st2 (PEv.spawn nm ags .piped o e)) (PEv.copyTask b))
        (PEv.waitChild w)).procs
      = st2.procs ++ [PEv.spawn nm ags .piped o e, PEv.copyTask b, PEv.waitChild w] :=
  addEv3_procs st2 _ _ _ hp

theorem BufTaskOk_ext_chunk (nm : Str) (ags : List Str) (o e : StdioCfg) (b w : Str) :
    BufTaskOk [PEv.spawn nm ags .piped o e, PEv.copyTask b, PEv.waitChild w] :=
  .spawnStep _ _ _ _ _ _ (.skip _ _ (fun n2 a2 o2 e2 => by simp) .nil)

set_option maxHeartbeats 1000000 in
theorem delta_withInputLoop (env : Env) (hist : List Str) :
    ∀ (segs : List Str) (input : Str) (st : St), ∃ Δ,
      (withInputLoop env hist segs input st).procs = st.procs ++ Δ ∧ BufTaskOk Δ := by
  intro segs
  induction segs with
  | nil =>
    intro input st
    exact ⟨[], by rw [withInputLoop.eq_def]; simp, .nil⟩
  | cons seg rest ih =>
    intro input st
    rw [withInputLoop.eq_def]
    dsimp only
    split
    · exact ⟨[], by simp, .nil⟩
    · rename_i hpan
      have hp : st.panicked = false := by
        simpa using hpan
      split
      · exact ⟨[], by simp [eput_procs], .nil⟩
      · split
        · exact ih _ _
        · split
          · exact ⟨[], by simp [eput_procs], .nil⟩
          · rename_i sres tk so2 se2 fs2 hsetup
            split
            · exact ih _ _
            · split
              · -- builtin stage
                obtain ⟨d0, hd0, hb0⟩ := delta_with_bytes env hist tk input { st with fs := fs2 }
                split
                · refine ⟨d0, ?_, hb0⟩
                  rw [oput_procs]
                  exact hd0
                · obtain ⟨d1, hd1, hb1⟩ :=
                    ih (run_builtin_with_bytes env hist tk input { st with fs := fs2 }).2
                      (run_builtin_with_bytes env hist tk input { st with fs := fs2 }).1
                  refine ⟨d0 ++ d1, ?_, BufTaskOk_append hb0 hb1⟩
                  rw [hd1, hd0, List.append_assoc]
              · split
                · -- external stage, spawn succeeded
                  split
                  · split
                    · exact ⟨[PEv.spawn (tk.headD []) tk.tail .piped .piped
                          (if (mkIo so2 se2).capture_stderr = true then .piped else .inherit),
                          PEv.copyTask input, PEv.waitChild (tk.headD [])],
                        delta_ext_chunk { st with fs := fs2 } hp _ _ _ _ _ _,
                        BufTaskOk_ext_chunk _ _ _ _ _ _⟩
                    · refine ⟨?_, ?_, ?_⟩
                      · exact [PEv.spawn (tk.headD []) tk.tail .piped .inherit
                          (if (mkIo so2 se2).capture_stderr = true then .piped else .inherit),
                          PEv.copyTask input, PEv.waitChild (tk.headD [])]
                      · rw [oput_procs]
                        exact delta_ext_chunk { st with fs := fs2 } hp _ _ _ _ _ _
                      · exact BufTaskOk_ext_chunk _ _ _ _ _ _
                  · obtain ⟨d1, hd1, hb1⟩ := ih _
                      (addEv (addEv (addEv { st with fs := fs2 }
                          (PEv.spawn (tk.headD []) tk.tail .piped .piped
                            (if (mkIo so2 se2).capture_stderr = true then .piped else .inherit)))
                        (PEv.copyTask input)) (PEv.waitChild (tk.headD [])))
                    refine ⟨[PEv.spawn (tk.headD []) tk.tail .piped .piped
                        (if (mkIo so2 se2).capture_stderr = true then .piped else .inherit),
                        PEv.copyTask input, PEv.waitChild (tk.headD [])] ++ d1, ?_, ?_⟩
                    · rw [hd1, delta_ext_chunk { st with fs := fs2 } hp, List.append_assoc]
                    · exact BufTaskOk_append (BufTaskOk_ext_chunk _ _ _ _ _ _) hb1
                · exact ⟨[], by simp [eput_procs], .nil⟩

theorem stWrite_pan_eq (env : Env) (isErr : Bool) (s : WSink) (bytes : Str)
    (st : St) (buf : Str)
    (ho : env.stdoutOk = true) (he : env.stderrOk = true) (hf : env.fileOk = true) :
    ((stWrite env isErr s bytes st buf).1).panicked = st.panicked := by
  unfold stWrite
  repeat' split
  all_goals simp_all

theorem eput_pan_eq (env : Env) (bytes : Str) (st : St)
    (ho : env.stdoutOk = true) (he : env.stderrOk = true) (hf : env.fileOk = true) :
    (eput env bytes st).panicked = st.panicked :=
  stWrite_pan_eq _ _ _ _ _ _ ho he hf

theorem oput_pan_eq (env : Env) (bytes : Str) (st : St)
    (ho : env.stdoutOk = true) (he : env.stderrOk = true) (hf : env.fileOk = true) :
    (oput env bytes st).panicked = st.panicked :=
  stWrite_pan_eq _ _ _ _ _ _ ho he hf

theorem waitFold_pan (children : List Str) :
    ∀ st : St, (children.foldl (fun s n => addEv s (.waitChild n)) st).panicked
      = st.panicked := by
  induction children with
  | nil => intro st; rfl
  | cons n l ih =>
    intro st
    rw [List.foldl_cons, ih, addEv_pan]

theorem handle_cd_pan_eq (env : Env) (tokens : List Str) (io : ShellIo) (st : St) (buf : Str)
    (ho : env.stdoutOk = true) (he : env.stderrOk = true) (hf : env.fileOk = true) :
    ((handle_cd env tokens io st buf).1).panicked = st.panicked := by
  unfold handle_cd
  dsimp only
  repeat' split
  all_goals first | rfl | (apply stWrite_pan_eq <;> assumption)

theorem handle_echo_pan_eq (env : Env) (tokens : List Str) (io : ShellIo) (st : St) (buf : Str)
    (ho : env.stdoutOk = true) (he : env.stderrOk = true) (hf : env.fileOk = true) :
    ((handle_echo env tokens io st buf).1).panicked = st.panicked :=
  stWrite_pan_eq _ _ _ _ _ _ ho he hf

theorem handle_history_pan_eq (env : Env) (hist : List Str) (io : ShellIo) (st : St) (buf : Str)
    (ho : env.stdoutOk = true) (he : env.stderrOk = true) (hf : env.fileOk = true) :
    ((handle_history env hist io st buf).1).panicked = st.panicked := by
  unfold handle_history
  generalize hist.enum = l
  induction l generalizing st buf with
  | nil => rfl
  | cons a l ih =>
    rw [List.foldl_cons]
    rw [show (stWrite env false io.outS (histLine a) st buf)
          = ((stWrite env false io.outS (histLine a) st buf).1,
             (stWrite env false io.outS (histLine a) st buf).2) from rfl]
    rw [ih]
    exact stWrite_pan_eq _ _ _ _ _ _ ho he hf

theorem handle_pwd_pan_eq (env : Env) (io : ShellIo) (st : St) (buf : Str)
    (ho : env.stdoutOk = true) (he : env.stderrOk = true) (hf : env.fileOk = true) :
    ((handle_pwd env io st buf).1).panicked = st.panicked := by
  unfold handle_pwd
  split
  all_goals apply stWrite_pan_eq <;> assumption

theorem handle_type_pan_eq (env : Env) (tokens : List Str) (io : ShellIo) (st : St) (buf : Str)
    (ho : env.stdoutOk = true) (he : env.stderrOk = true) (hf : env.fileOk = true) :
    ((handle_type env tokens io st buf).1).panicked = st.panicked := by
  unfold handle_type
  dsimp only
  repeat' split
  all_goals first | rfl | (apply stWrite_pan_eq <;> assumption)

theorem dispatchBuiltin_pan_eq (env : Env) (hist : List Str) (name : Str)
    (tokens : List Str) (io : ShellIo) (st : St) (buf : Str)
    (ho : env.stdoutOk = true) (he : env.stderrOk = true) (hf : env.fileOk = true) :
    ((dispatchBuiltin env hist name tokens io st buf).1).panicked = st.panicked := by
  unfold dispatchBuiltin
  repeat' split
  · exact handle_cd_pan_eq _ _ _ _ _ ho he hf
  · exact handle_echo_pan_eq _ _ _ _ _ ho he hf
  · exact handle_history_pan_eq _ _ _ _ _ ho he hf
  · exact handle_pwd_pan_eq _ _ _ _ ho he hf
  · exact handle_type_pan_eq _ _ _ _ _ ho he hf
  · rfl

theorem for_pipe_pan_eq (env : Env) (hist : List Str) (tokens : List Str)
    (stdin : Option Str) (st : St)
    (ho : env.stdoutOk = true) (he : env.stderrOk = true) (hf : env.fileOk = true) :
    ((run_builtin_for_pipe env hist tokens stdin st).1).panicked = st.panicked := by
  unfold run_builtin_for_pipe
  dsimp only
  rw [dispatchBuiltin_pan_eq _ _ _ _ _ _ _ ho he hf, addEv_pan]

theorem with_bytes_pan_eq (env : Env) (hist : List Str) (tokens : List Str)
    (input : Str) (st : St)
    (ho : env.stdoutOk = true) (he : env.stderrOk = true) (hf : env.fileOk = true) :
    ((run_builtin_with_bytes env hist tokens input st).1).panicked = st.panicked := by
  unfold run_builtin_with_bytes
  dsimp only
  rw [dispatchBuiltin_pan_eq _ _ _ _ _ _ _ ho he hf, addEv_pan]

theorem run_external_pan_eq (env : Env) (tokens : List Str) (io : ShellIo) (st : St)
    (ho : env.stdoutOk = true) (he : env.stderrOk = true) (hf : env.fileOk = true) :
    (run_external env tokens io st).panicked = st.panicked := by
  unfold run_external
  dsimp only
  repeat' split
  all_goals simp [stWrite_pan_eq _ _ _ _ _ _ ho he hf, addEv_pan]

set_option maxHeartbeats 1000000 in
theorem withInputLoop_pan_eq (env : Env) (hist : List Str)
    (ho : env.stdoutOk = true) (he : env.stderrOk = true) (hf : env.fileOk = true) :
    ∀ (segs : List Str) (input : Str) (st : St),
      (withInputLoop env hist segs input st).panicked = st.panicked := by
  intro segs
  induction segs with
  | nil =>
    intro input st
    rw [withInputLoop.eq_def]
  | cons seg rest ih =>
    intro input st
    rw [withInputLoop.eq_def]
    dsimp only
    split
    · rfl
    · split
      · exact eput_pan_eq _ _ _ ho he hf
      · split
        · exact ih _ _
        · split
          · exact eput_pan_eq _ _ _ ho he hf
          · split
            · exact ih _ _
            · split
              · split
                · rw [oput_pan_eq _ _ _ ho he hf]
                  exact with_bytes_pan_eq _ _ _ _ _ ho he hf
                · rw [ih]
                  exact with_bytes_pan_eq _ _ _ _ _ ho he hf
              · split
                · split
                  · split
                    · rw [addEv_pan, addEv_pan, addEv_pan]
                    · rw [oput_pan_eq _ _ _ ho he hf, addEv_pan, addEv_pan, addEv_pan]
                  · rw [ih, addEv_pan, addEv_pan, addEv_pan]
                · exact eput_pan_eq _ _ _ ho he hf

theorem with_input_pan_eq (env : Env) (hist : List Str) (segs : List Str) (input : Str)
    (st : St)
    (ho : env.stdoutOk = true) (he : env.stderrOk = true) (hf : env.fileOk = true) :
    (run_pipeline_with_input env hist segs input st).panicked = st.panicked := by
  unfold run_pipeline_with_input
  split
  · exact oput_pan_eq _ _ _ ho he hf
  · exact withInputLoop_pan_eq env hist ho he hf _ _ _

set_option maxHeartbeats 1000000 in
theorem pipedLoop_pan_eq (env : Env) (hist : List Str)
    (ho : env.stdoutOk = true) (he : env.stderrOk = true) (hf : env.fileOk = true) :
    ∀ (segs children : List Str) (prev : Option Str) (st : St),
      (pipedLoop env hist segs children prev st).panicked = st.panicked := by
  intro segs
  induction segs with
  | nil =>
    intro children prev st
    rw [pipedLoop.eq_def]
    exact waitFold_pan children st
  | cons seg rest ih =>
    intro children prev st
    rw [pipedLoop.eq_def]
    dsimp only
    split
    · rfl
    · split
      · exact eput_pan_eq _ _ _ ho he hf
      · split
        · exact ih _ _ _
        · split
          · exact eput_pan_eq _ _ _ ho he hf
          · split
            · exact ih _ _ _
            · split
              · split
                · rw [waitFold_pan, oput_pan_eq _ _ _ ho he hf]
                  exact for_pipe_pan_eq _ _ _ _ _ ho he hf
                · rw [with_input_pan_eq _ _ _ _ _ ho he hf]
                  exact for_pipe_pan_eq _ _ _ _ _ ho he hf
              · split
                · rw [ih]
                  repeat' split
                  all_goals simp [addEv_pan]
                · exact eput_pan_eq _ _ _ ho he hf

theorem run_single_pan_eq (env : Env) (hist : List Str) (command : Str) (st : St)
    (ho : env.stdoutOk = true) (he : env.stderrOk = true) (hf : env.fileOk = true) :
    (run_single_command env hist command st).panicked = st.panicked := by
  unfold run_single_command
  split
  · rfl
  · split
    · exact eput_pan_eq _ _ _ ho he hf
    · split
      · rfl
      · split
        · exact eput_pan_eq _ _ _ ho he hf
        · dsimp only
          split
          · rfl
          · split
            · rw [addEv_pan]
            · split
              · rw [dispatchBuiltin_pan_eq _ _ _ _ _ _ _ ho he hf, addEv_pan]
              · exact run_external_pan_eq _ _ _ _ ho he hf

theorem run_pipeline_pan_eq (env : Env) (hist : List Str) (input : Str) (st : St)
    (ho : env.stdoutOk = true) (he : env.stderrOk = true) (hf : env.fileOk = true) :
    (run_pipeline env hist input st).panicked = st.panicked := by
  unfold run_pipeline
  split
  · rfl
  · dsimp only
    unfold run_piped_commands
    split
    · rfl
    · split
      · exact run_single_pan_eq _ _ _ _ ho he hf
      · exact pipedLoop_pan_eq env hist ho he hf _ _ _ _

/-- C5: delivery of an in-memory buffer into an external stage's standard
input is never performed inline in the orchestrating thread (no execution
of the engine ever performs an inline feed between spawn and wait), and in
`run_pipeline_with_input` — the only place buffer-fed externals arise —
every spawned child with piped standard input is immediately followed by a
dedicated concurrent copy task (`thread::spawn`) delivering the buffered
bytes; the task closes the child's stdin when it completes because the
moved handle is dropped at the end of the thread closure. -/
theorem C5_buffer_delivery :
    (∀ env hist input st b, PEv.inlineFeed b ∉ st.procs →
        PEv.inlineFeed b ∉ (run_pipeline env hist input st).procs)
    ∧ (∀ env hist segs input st, ∃ Δ,
        (run_pipeline_with_input env hist segs input st).procs = st.procs ++ Δ
          ∧ BufTaskOk Δ) := by
  constructor
  · intro env hist input st b hnot hmem
    rcases mem_run_pipeline hmem with h | h
    · exact hnot h
    · exact h b rfl
  · intro env hist segs input st
    unfold run_pipeline_with_input
    split
    · exact ⟨[], by simp [oput_procs], .nil⟩
    · exact delta_withInputLoop env hist segs input st

/-- C5, witness: the no-inline-delivery conjunct applied to a concrete
builtin-into-external pipeline. -/
theorem C5_buffer_delivery_witness :
    PEv.inlineFeed [] ∉ (run_pipeline envAll [] "echo hi | wc".data st0).procs :=
  C5_buffer_delivery.1 envAll [] "echo hi | wc".data st0 [] (by decide)

/-- C6, amended: provided every write to the inherited streams and to
redirection files succeeds, no user input line can terminate the
interpreter abnormally — the whole pipeline run leaves the panic flag
unset.  (Without that proviso the claim is false: a failed sink write
panics through `unwrap`, see the counterexample.) -/
theorem C6_amended (env : Env) (hist : List Str) (input : Str) (st : St)
    (ho : env.stdoutOk = true) (he : env.stderrOk = true) (hf : env.fileOk = true)
    (hp : st.panicked = false) :
    (run_pipeline env hist input st).panicked = false := by
  rw [run_pipeline_pan_eq env hist input st ho he hf]
  exact hp

/-- C6, witness: the amended theorem applied at a concrete cooperative
environment and input line. -/
theorem C6_amended_witness :
    (run_pipeline envAll [] "echo hi".data st0).panicked = false :=
  C6_amended envAll [] "echo hi".data st0 rfl rfl rfl rfl

/-- C10: the `exit` builtin terminates the shell with success status only
as the sole stage of a single-stage pipeline — `run_single_command` on
`exit` performs `exitProcess 0` and nothing else (first conjunct) — while
the multi-stage machinery never emits an exit event at all (second
conjunct): a stage named `exit` is dispatched to the builtin runner whose
`exit` arm does nothing, producing an empty output buffer (third and
fourth conjuncts), and the remaining stages still run, as on the concrete
pipeline `exit | wc` where `wc` is still spawned, fed and waited (fifth
conjunct). -/
theorem C10_exit_dispatch :
    (∀ env hist st, st.panicked = false →
        run_single_command env hist "exit".data st = addEv st (.exitProcess 0))
    ∧ (∀ env hist segs children prev st c, PEv.exitProcess c ∉ st.procs →
        PEv.exitProcess c ∉ (pipedLoop env hist segs children prev st).procs)
    ∧ (∀ env hist tokens stdin st, tokens.headD [] = "exit".data →
        run_builtin_for_pipe env hist tokens stdin st
          = (addEv st (.runBuiltin "exit".data), []))
    ∧ (∀ env hist tokens input st, tokens.headD [] = "exit".data →
        run_builtin_with_bytes env hist tokens input st
          = (addEv st (.runBuiltin "exit".data), []))
    ∧ (PEv.spawn "wc".data [] .piped .inherit .inherit
          ∈ (run_pipeline envAll [] "exit | wc".data st0).procs
        ∧ ∀ c, PEv.exitProcess c ∉ (run_pipeline envAll [] "exit | wc".data st0).procs) := by
  refine ⟨?_, ?_, ?_, ?_, ?_⟩
  · intro env hist st hp
    obtain ⟨f1, c1, o1, e1, p1, pk⟩ := st
    simp only [St.panicked] at hp
    subst hp
    have hsp : splitWords "exit".data = .ok ["exit".data] := rfl
    have hsetup : setup_redirections env ["exit".data] f1
        = (.ok (["exit".data], none, none), f1) := by
      unfold setup_redirections
      rw [redirScan.eq_def]
      simp +decide
      rw [redirScan.eq_def]
    simp +decide [run_single_command, hsp, hsetup]
  · intro env hist segs children prev st c hnot hmem
    rcases mem_pipedLoop env hist segs children prev st hmem with h | h
    · exact hnot h
    · exact h.2 c rfl
  · intro env hist tokens stdin st h
    unfold run_builtin_for_pipe
    dsimp only
    rw [h]
    simp +decide [dispatchBuiltin]
  · intro env hist tokens input st h
    unfold run_builtin_with_bytes
    dsimp only
    rw [h]
    simp +decide [dispatchBuiltin]
  · have hlist : (run_pipeline envAll [] "exit | wc".data st0).procs
        = [.runBuiltin "exit".data, .spawn "wc".data [] .piped .inherit .inherit,
           .copyTask [], .waitChild "wc".data] := by rfl
    constructor
    · rw [hlist]
      decide
    · intro c
      rw [hlist]
      simp

/-- C10, witness: the single-stage conjunct applied at a concrete state,
and the no-exit conjunct applied to a concrete two-stage pipeline. -/
theorem C10_exit_dispatch_witness :
    run_single_command envAll [] "exit".data st0 = addEv st0 (.exitProcess 0)
      ∧ PEv.exitProcess 0 ∉ (pipedLoop envAll [] ["exit".data, "wc".data] [] none st0).procs :=
  ⟨C10_exit_dispatch.1 envAll [] st0 rfl,
   C10_exit_dispatch.2.1 envAll [] ["exit".data, "wc".data] [] none st0 0 (by decide)⟩

theorem oput_nil (env : Env) (st : St) : oput env [] st = st := by
  unfold oput stWrite
  simp

theorem oput_append (env : Env) (a b : Str) (st : St) :
    oput env (a ++ b) st = oput env b (oput env a st) := by
  by_cases ha : a = []
  · subst ha
    simp [oput_nil]
  · by_cases hb : b = []
    · subst hb
      simp [oput_nil]
    · unfold oput stWrite
      by_cases hp : st.panicked = true
      · simp_all
      · by_cases hok : env.stdoutOk = true
        · simp_all
        · simp_all

theorem stWrite_term_snd (env : Env) (isErr : Bool) (bytes : Str) (st : St) (buf : Str) :
    (stWrite env isErr .term bytes st buf).2 = buf := by
  unfold stWrite
  repeat' split
  all_goals first | rfl | simp_all

theorem buf_dump_eq (env : Env) (bytes : Str) (st : St) :
    oput env (stWrite env false .buf bytes st []).2 (stWrite env false .buf bytes st []).1
      = (stWrite env false .term bytes st []).1 := by
  by_cases hp : st.panicked = true
  · unfold stWrite
    simp [hp, oput_nil]
  · by_cases hb : bytes = []
    · subst hb
      unfold stWrite
      simp [hp, oput_nil]
    · unfold stWrite
      simp only [hp, hb, false_or, if_false]
      unfold oput stWrite
      simp [hp, hb]

theorem term_dump_eq (env : Env) (isErr : Bool) (bytes : Str) (st : St) :
    oput env (stWrite env isErr .term bytes st []).2 (stWrite env isErr .term bytes st []).1
      = (stWrite env isErr .term bytes st []).1 := by
  rw [stWrite_term_snd]
  exact oput_nil _ _

theorem echo_dump (env : Env) (toks : List Str) (st : St) (sIn : Option Str) :
    oput env (handle_echo env toks ⟨sIn, .buf, .term, true, false⟩ st []).2
        (handle_echo env toks ⟨sIn, .buf, .term, true, false⟩ st []).1
      = (handle_echo env toks ⟨none, .term, .term, false, false⟩ st []).1 := by
  unfold handle_echo
  exact buf_dump_eq _ _ _

theorem cd_dump (env : Env) (toks : List Str) (st : St) (sIn : Option Str) :
    oput env (handle_cd env toks ⟨sIn, .buf, .term, true, false⟩ st []).2
        (handle_cd env toks ⟨sIn, .buf, .term, true, false⟩ st []).1
      = (handle_cd env toks ⟨none, .term, .term, false, false⟩ st []).1 := by
  unfold handle_cd
  dsimp only
  repeat' split
  all_goals first
    | exact oput_nil _ _
    | exact term_dump_eq _ _ _ _

theorem pwd_dump (env : Env) (st : St) (sIn : Option Str) :
    oput env (handle_pwd env ⟨sIn, .buf, .term, true, false⟩ st []).2
        (handle_pwd env ⟨sIn, .buf, .term, true, false⟩ st []).1
      = (handle_pwd env ⟨none, .term, .term, false, false⟩ st []).1 := by
  unfold handle_pwd
  split
  · exact buf_dump_eq _ _ _
  · exact term_dump_eq _ _ _ _

theorem type_dump (env : Env) (toks : List Str) (st : St) (sIn : Option Str) :
    oput env (handle_type env toks ⟨sIn, .buf, .term, true, false⟩ st []).2
        (handle_type env toks ⟨sIn, .buf, .term, true, false⟩ st []).1
      = (handle_type env toks ⟨none, .term, .term, false, false⟩ st []).1 := by
  unfold handle_type
  dsimp only
  repeat' split
  all_goals first
    | exact oput_nil _ _
    | exact buf_dump_eq _ _ _
    | exact term_dump_eq _ _ _ _

theorem stWrite_term_fst_bufless (env : Env) (isErr : Bool) (bytes : Str) (st : St)
    (buf : Str) :
    (stWrite env isErr .term bytes st buf).1 = (stWrite env isErr .term bytes st []).1 := by
  unfold stWrite
  repeat' split
  all_goals rfl

theorem oput_panicked (env : Env) (b : Str) (st : St) (hp : st.panicked = true) :
    oput env b st = st := by
  unfold oput stWrite
  simp [hp]

theorem histFold_buf (env : Env) (io : ShellIo) (hio : io.outS = .buf) (l : List (Nat × Str)) :
    ∀ (st : St) (b : Str),
      l.foldl (fun p ie => stWrite env false io.outS (histLine ie) p.1 p.2) (st, b)
        = (st, if st.panicked = true then b else b ++ (l.map histLine).flatten) := by
  induction l with
  | nil =>
    intro st b
    by_cases hp : st.panicked = true
    · simp [hp]
    · simp [hp]
  | cons a l ih =>
    intro st b
    rw [List.foldl_cons]
    by_cases hp : st.panicked = true
    · rw [show stWrite env false io.outS (histLine a) st b = (st, b) from by
        unfold stWrite
        simp [hp]]
      rw [ih st b]
      simp [hp]
    · by_cases hb : histLine a = []
      · rw [show stWrite env false io.outS (histLine a) st b = (st, b) from by
          unfold stWrite
          simp [hb]]
        rw [ih st b]
        simp [hp, hb]
      · rw [show stWrite env false io.outS (histLine a) st b = (st, b ++ histLine a) from by
          unfold stWrite
          rw [hio]
          simp [hp, hb]]
        rw [ih st (b ++ histLine a)]
        simp [hp]

theorem histFold_term (env : Env) (io : ShellIo) (hio : io.outS = .term) (l : List (Nat × Str)) :
    ∀ (st : St) (b : Str),
      (l.foldl (fun p ie => stWrite env false io.outS (histLine ie) p.1 p.2) (st, b)).1
        = l.foldl (fun s ie => oput env (histLine ie) s) st := by
  induction l with
  | nil =>
    intro st b
    rfl
  | cons a l ih =>
    intro st b
    rw [List.foldl_cons, List.foldl_cons]
    rw [show stWrite env false io.outS (histLine a) st b
          = ((stWrite env false io.outS (histLine a) st b).1,
             (stWrite env false io.outS (histLine a) st b).2) from rfl]
    rw [ih]
    rw [hio, stWrite_term_fst_bufless]
    rfl

theorem oput_flatten (env : Env) (l : List (Nat × Str)) :
    ∀ st : St, oput env ((l.map histLine).flatten) st
      = l.foldl (fun s ie => oput env (histLine ie) s) st := by
  induction l with
  | nil =>
    intro st
    simp [oput_nil]
  | cons a l ih =>
    intro st
    rw [List.map_cons, List.flatten_cons, oput_append, ih, List.foldl_cons]

theorem oput_fold_panicked (env : Env) (l : List (Nat × Str)) :
    ∀ st : St, st.panicked = true →
      l.foldl (fun s ie => oput env (histLine ie) s) st = st := by
  induction l with
  | nil =>
    intro st _
    rfl
  | cons a l ih =>
    intro st hp
    rw [List.foldl_cons, oput_panicked _ _ _ hp]
    exact ih st hp

theorem history_dump (env : Env) (hist : List Str) (st : St) (sIn : Option Str) :
    oput env (handle_history env hist ⟨sIn, .buf, .term, true, false⟩ st []).2
        (handle_history env hist ⟨sIn, .buf, .term, true, false⟩ st []).1
      = (handle_history env hist ⟨none, .term, .term, false, false⟩ st []).1 := by
  unfold handle_history
  rw [histFold_buf env ⟨sIn, .buf, .term, true, false⟩ rfl hist.enum st []]
  rw [histFold_term env ⟨none, .term, .term, false, false⟩ rfl hist.enum st []]
  by_cases hp : st.panicked = true
  · simp only [hp, if_true]
    rw [oput_nil]
    exact (oput_fold_panicked env hist.enum st hp).symm
  · simp only [hp, if_false]
    rw [List.nil_append]
    exact oput_flatten env hist.enum st

theorem dispatch_dump (env : Env) (hist : List Str) (name : Str) (toks : List Str)
    (st : St) (sIn : Option Str) :
    oput env (dispatchBuiltin env hist name toks ⟨sIn, .buf, .term, true, false⟩ st []).2
        (dispatchBuiltin env hist name toks ⟨sIn, .buf, .term, true, false⟩ st []).1
      = (dispatchBuiltin env hist name toks ⟨none, .term, .term, false, false⟩ st []).1 := by
  by_cases h1 : name = "cd".data
  · simp only [dispatchBuiltin, h1, if_true]
    exact cd_dump _ _ _ _
  · by_cases h2 : name = "echo".data
    · simp only [dispatchBuiltin, h1, h2, if_false, if_true]
      exact echo_dump _ _ _ _
    · by_cases h3 : name = "history".data
      · simp only [dispatchBuiltin, h1, h2, h3, if_false, if_true]
        exact history_dump _ _ _ _
      · by_cases h4 : name = "pwd".data
        · simp only [dispatchBuiltin, h1, h2, h3, h4, if_false, if_true]
          exact pwd_dump _ _ _
        · by_cases h5 : name = "type".data
          · simp only [dispatchBuiltin, h1, h2, h3, h4, h5, if_false, if_true]
            exact type_dump _ _ _ _
          · simp only [dispatchBuiltin, h1, h2, h3, h4, h5, if_false]
            exact oput_nil _ _

set_option maxHeartbeats 2000000 in
/-- C3, amended: a single-stage line is handled by a dedicated path
(`run_single_command`) rather than the general machinery, but the two
agree whenever the stage resolves no redirection files and its command is
not `exit`: under those conditions `run_single_command` on the segment
produces exactly the same state as the N-stage algorithm at N=1.  (The
exception is necessary: `exit` terminates the shell only in the single
path, and resolved redirection files are honored only in the single path —
see the counterexample.) -/
theorem C3_amended (env : Env) (hist : List Str) (st : St) (seg : Str)
    (toks clean : List Str)
    (hp : st.panicked = false)
    (hsp : splitWords seg = .ok toks)
    (hsetup : setup_redirections env toks st.fs = (.ok (clean, none, none), st.fs))
    (hexit : clean.headD [] ≠ "exit".data) :
    run_single_command env hist seg st = run_piped_commands env hist [seg] st := by
  obtain ⟨f1, c1, o1, e1, p1, pk⟩ := st
  simp only [St.panicked] at hp
  simp only [St.fs] at hsetup
  subst hp
  unfold run_piped_commands
  rw [pipedLoop.eq_def]
  unfold run_single_command
  by_cases htoks : toks = []
  · subst htoks
    simp [hsp]
    rw [pipedLoop.eq_def]
    rfl
  · simp only [hsp, hsetup]
    simp only [htoks, if_false, if_neg htoks]
    simp +decide only [if_true, if_false, mkIo, Option.isSome_none, Option.getD_none,
      List.foldl_nil, List.nil_append]
    by_cases hclean : clean = []
    · subst hclean
      simp only [if_pos rfl]
      rw [pipedLoop.eq_def]
      rfl
    · simp only [if_neg hclean, if_neg hexit]
      by_cases hb : clean.headD [] ∈ BUILTINS
      · simp only [if_pos hb]
        unfold run_builtin_for_pipe
        dsimp only
        exact (dispatch_dump env hist (clean.headD []) clean _ none).symm
      · simp only [if_neg hb]
        by_cases hspawn : env.spawnOk (clean.headD []) = true
        · simp only [if_pos hspawn]
          rw [pipedLoop.eq_def]
          unfold run_external
          simp +decide only [if_true, if_false, Option.isSome_none, Option.getD_none,
            List.foldl_cons, List.foldl_nil]
          simp only [if_pos hspawn]
        · simp only [if_neg hspawn]
          unfold run_external
          simp +decide only [hspawn, if_true, if_false, Option.isSome_none]
          rfl







/-- C3, witness: the amended equivalence applied to the concrete
single-stage line `echo hi`. -/
theorem C3_amended_witness :
    run_single_command envAll [] "echo hi".data st0
      = run_piped_commands envAll [] ["echo hi".data] st0 :=
  C3_amended envAll [] st0 "echo hi".data ["echo".data, "hi".data]
    ["echo".data, "hi".data] rfl rfl rfl (by decide)
